import Mathlib

/-!
# Bodega provider: order registry, polling loop and duration formatting

A shallow embedding of `vm/bodega` (`utils.go`, `http.go`, `manager.go`,
`provider.go`).

Modelling conventions.

* Go `error` values are their message strings; `errors.Wrapf (err, msg)` is
  `msg ++ ": " ++ err`.
* A function that can fail a type assertion returns an `Outcome`, which has a
  third alternative `panic` next to `ok` and `error`.
* The remote service, the file system and the clock are an explicit `World`
  that every effectful function takes and returns.
* A Go map is an association list with pairwise distinct keys; `range` visits
  the entries in list order.  Every theorem is stated for an arbitrary list, so
  it holds for every iteration order.  A nil map is a separate constructor.
* Functions of the Go standard library (`encoding/json`, `net/url`, `time`) are
  fields of `Lib`.
-/

set_option autoImplicit false

namespace Bodega

/-! ## utils.go -/

def oneDayInSeconds : Int := 86400
def oneHourInSeconds : Int := 3600
def oneMinuteInSeconds : Int := 60

/-- Source `inSlice`: linear search with early return. -/
def inSlice (s : String) : List String → Bool
  | [] => false
  | elem :: rest => if s = elem then true else inSlice s rest

/-- The verb `%d` of `fmt.Sprintf` on an `int`. -/
def fmtD (n : Int) : String := toString n

/-- The verb `%02d` of `fmt.Sprintf` on an `int`: zero padding to width two, a
minus sign counting towards the width. -/
def fmt02d (n : Int) : String :=
  if 0 ≤ n ∧ n < 10 then "0" ++ toString n else toString n

/-- Source `convert`.  The argument is `int(timeDelta.Seconds())`, which for a
duration of a whole number `s` of seconds is `s` itself.  Go `/` and `%` on `int`
truncate towards zero. -/
def convert (timeDeltaSeconds : Int) : String :=
  let seconds := timeDeltaSeconds
  let days := Int.tdiv seconds oneDayInSeconds
  let seconds := Int.tmod seconds oneDayInSeconds
  let hours := Int.tdiv seconds oneHourInSeconds
  let seconds := Int.tmod seconds oneHourInSeconds
  let minutes := Int.tdiv seconds oneMinuteInSeconds
  let seconds := seconds - minutes * oneMinuteInSeconds
  if days = 0 then
    fmt02d hours ++ ":" ++ fmt02d minutes ++ ":" ++ fmt02d seconds
  else
    fmtD days ++ " " ++ fmt02d hours ++ ":" ++ fmt02d minutes ++ ":" ++ fmt02d seconds

/-- Specification side of `convert`: a number below 100 written with exactly two
decimal digits. -/
def twoDigits (n : Nat) : String :=
  String.mk [Nat.digitChar (n / 10), Nat.digitChar (n % 10)]

/-- Specification side of `convert`: the text `HH:MM:SS` of `s` seconds. -/
def clockText (s : Nat) : String :=
  twoDigits (s % 86400 / 3600) ++ ":" ++ twoDigits (s % 3600 / 60) ++ ":" ++ twoDigits (s % 60)

/-! ## Values, outcomes, the world -/

/-- A decoded JSON value as `encoding/json` stores it in an `interface{}`. -/
inductive JVal where
  | null
  | bool (b : Bool)
  | num (n : Int)
  | str (s : String)
  | arr (xs : List JVal)
  | obj (kvs : List (String × JVal))

/-- Go `map[string]interface{}`; only ever read here, so nil is the empty list. -/
abbrev JObj := List (String × JVal)

/-- Result of a function that may return normally, return an error or panic. -/
inductive Outcome (α : Type) where
  | ok (a : α)
  | error (msg : String)
  | panic (msg : String)

/-- Entries of a non-nil `map[string][]string`. -/
abbrev Entries := List (String × List String)

/-- Go `map[string][]string`, nil or allocated. -/
inductive OrderMap where
  | nilMap
  | mk (entries : Entries)

/-- Map assignment `m[k] = v` on the entries of an allocated map. -/
def setEntry (k : String) (v : List String) : Entries → Entries
  | [] => [(k, v)]
  | (k1, v1) :: rest => if k1 = k then (k, v) :: rest else (k1, v1) :: setEntry k v rest

/-- The entries a `range` over the map visits. -/
def OrderMap.entries : OrderMap → Entries
  | OrderMap.nilMap => []
  | OrderMap.mk es => es

/-- Map read `m[k]` with the comma-ok form. -/
def OrderMap.get? (m : OrderMap) (k : String) : Option (List String) :=
  m.entries.lookup k

/-- The map a JSON decoder builds from the members of an object, assigning them
in the order of the text. -/
def fromPairs (ps : Entries) : Entries :=
  ps.foldl (fun acc p => setEntry p.1 p.2 acc) []

/-- The value of `var orderMap map[string][]string` after a successful `Decode`:
still nil for JSON `null`, else the map built from the members. -/
def decodedMap : Option Entries → OrderMap
  | none => OrderMap.nilMap
  | some ps => OrderMap.mk (fromPairs ps)

structure URL where
  scheme : String
  host : String
  path : String
  rawQuery : List (String × String)

structure Request where
  method : String
  url : URL
  headers : List (String × String)
  body : Option String

/-- An HTTP response: status code, status line, and what reading the body gives. -/
structure Response where
  statusCode : Int
  status : String
  body : Except String String

/-- What `http.Client.Do` returns. -/
inductive DoResult where
  | failed (err : String)
  | resp (r : Response)

inductive FileState where
  | absent
  | unreadable (err : String)
  | content (data : String)

/-- Go standard-library functions the package calls. -/
structure Lib where
  /-- What `(*url.URL).String` gives. -/
  urlString : URL → String
  /-- The error of `http.NewRequest`, if any. -/
  newRequest : String → URL → Option String
  /-- Go `json.Marshal` of a dynamic value. -/
  jsonMarshal : JVal → Except String String
  /-- The verb `%v` on a dynamic value. -/
  sprintV : JVal → String
  /-- Decoding a body into `map[string]interface{}`. -/
  jsonDecodeObject : String → Except String JObj
  /-- Go `json.MarshalIndent (m, "", "  ")` of a `map[string][]string`. -/
  marshalIndent : OrderMap → Except String String
  /-- Decoding a text into `map[string][]string`: `none` for JSON `null`, else the
  members of the object in text order. -/
  decodeOrders : String → Except String (Option Entries)
  /-- Go `time.Parse (time.RFC3339, s)`, the time as Unix seconds. -/
  parseRFC3339 : String → Except String Int

/-- The environment: the service answering the n-th request, the files, the
outcome a failing `ioutil.WriteFile` would have, and the minutes slept. -/
structure World where
  remote : Nat → Request → DoResult
  calls : Nat
  fs : String → FileState
  writeFault : Option (String × FileState)
  slept : Nat

/-! ## http.go -/

structure httpClient where
  auth : String

/-- Common tail of `get` and `post` after the request has been sent. -/
def readResponse (lib : Lib) (r : Response) : Except String JObj :=
  if r.statusCode < 200 ∨ r.statusCode ≥ 300 then
    match r.body with
    | Except.error _ =>
      Except.error ("response status: " ++ r.status ++ "\nunable to read response body")
    | Except.ok body =>
      Except.error ("response status: " ++ r.status ++ "\nresponse body:\n" ++ body)
  else
    match r.body with
    | Except.error e => Except.error e
    | Except.ok body => lib.jsonDecodeObject body

/-- Source `httpClient.get`. -/
def httpClient.get (lib : Lib) (c : httpClient) (url : URL) (w : World) :
    Except String JObj × World :=
  match lib.newRequest "GET" url with
  | some e => (Except.error ("unable to create GET request for " ++ lib.urlString url ++ ": " ++ e), w)
  | none =>
    let req : Request := ⟨"GET", url, [("Authorization", c.auth)], none⟩
    let w1 : World := { w with calls := w.calls + 1 }
    match w.remote w.calls req with
    | DoResult.failed e =>
      (Except.error ("unable to make GET request to " ++ lib.urlString url ++ ": " ++ e), w1)
    | DoResult.resp r => (readResponse lib r, w1)

/-- Source `httpClient.post`. -/
def httpClient.post (lib : Lib) (c : httpClient) (url : URL) (b : String) (w : World) :
    Except String JObj × World :=
  match lib.newRequest "POST" url with
  | some e => (Except.error ("unable to create POST request for " ++ lib.urlString url ++ ": " ++ e), w)
  | none =>
    let req : Request :=
      ⟨"POST", url, [("Authorization", c.auth), ("Content-Type", "application/json")], some b⟩
    let w1 : World := { w with calls := w.calls + 1 }
    match w.remote w.calls req with
    | DoResult.failed e =>
      (Except.error ("unable to make POST request to " ++ lib.urlString url ++ ": " ++ e), w1)
    | DoResult.resp r => (readResponse lib r, w1)

/-! ## manager.go -/

def urlScheme : String := "https"
def urlHost : String := "bodega.rubrik-lab.com"
def urlPathOrders : String := "api/orders/"
def urlPathOrderUpdates : String := "api/order_updates/"
def urlPathProfile : String := "api/profile/"

structure bodegaManager where
  bodegaOrderPath : String
  client : httpClient

/-- Source `providerOpts` (declared in provider.go). -/
structure providerOpts where
  DiskSize : Int
  Location : String
  Model : String

/-- Map assignment `m[k] = v` on a `map[string]interface{}`. -/
def setField (k : String) (v : JVal) : JObj → JObj
  | [] => [(k, v)]
  | (k1, v1) :: rest => if k1 = k then (k, v) :: rest else (k1, v1) :: setField k v rest

/-- The message of the runtime panic of a failed type assertion. -/
def assertionPanic : String := "interface conversion"

/-- Source `bodegaManager.postDataToPath`. -/
def bodegaManager.postDataToPath (lib : Lib) (m : bodegaManager) (path : String) (data : JObj)
    (w : World) : Except String JObj × World :=
  match lib.jsonMarshal (JVal.obj data) with
  | Except.error e =>
    (Except.error ("unable to encode JSON: " ++ lib.sprintV (JVal.obj data) ++ ": " ++ e), w)
  | Except.ok dataBytes => m.client.post lib ⟨urlScheme, urlHost, path, []⟩ dataBytes w

/-- Source `bodegaManager.placeOrder`. -/
def bodegaManager.placeOrder (lib : Lib) (m : bodegaManager) (names : List String)
    (opts : providerOpts) (w : World) : Outcome String × World :=
  let machine : JVal := JVal.obj
    [("type", JVal.str "ubuntu_machine"),
     ("requirements", JVal.obj
        [("disk_size", JVal.num opts.DiskSize),
         ("location", JVal.str opts.Location),
         ("model", JVal.str opts.Model)])]
  let items : JObj := names.foldl (fun items name => setField name machine items) []
  match lib.jsonMarshal (JVal.obj items) with
  | Except.error e =>
    (Outcome.error ("unable to encode JSON: " ++ lib.sprintV (JVal.obj items) ++ ": " ++ e), w)
  | Except.ok itemsString =>
    let order : JObj := [("items", JVal.str itemsString)]
    let r := m.postDataToPath lib urlPathOrders order w
    match r.1 with
    | Except.error e => (Outcome.error e, r.2)
    | Except.ok result =>
      match result.lookup "sid" with
      | none => (Outcome.error "unable to find orderID in POST response", r.2)
      | some (JVal.str orderID) => (Outcome.ok orderID, r.2)
      | some _ => (Outcome.panic assertionPanic, r.2)

/-- Source `bodegaManager.consumeOrder`. -/
def bodegaManager.consumeOrder (lib : Lib) (m : bodegaManager) (orderID : String) (w : World) :
    Except String JObj × World :=
  m.client.get lib ⟨urlScheme, urlHost, urlPathOrders ++ orderID, []⟩ w

/-- Modelled from the spec: `bodegaManager.getOrder`, which provider.go calls and no
source file defines.  The spec lists it with `consumeOrder`: GET orders/id, the full
order object on success, the transport error propagated. -/
def bodegaManager.getOrder (lib : Lib) (m : bodegaManager) (orderID : String) (w : World) :
    Except String JObj × World :=
  m.consumeOrder lib orderID w

/-- Source `bodegaManager.ownerSid`. -/
def bodegaManager.ownerSid (lib : Lib) (m : bodegaManager) (w : World) : Outcome String × World :=
  let r := m.client.get lib ⟨urlScheme, urlHost, urlPathProfile, []⟩ w
  match r.1 with
  | Except.error e => (Outcome.error e, r.2)
  | Except.ok result =>
    match result.lookup "sid" with
    | none => (Outcome.error "unable to find sid in GET response", r.2)
    | some (JVal.str sidString) => (Outcome.ok sidString, r.2)
    | some _ => (Outcome.panic assertionPanic, r.2)

/-- Source `bodegaManager.listOrders`. -/
def bodegaManager.listOrders (lib : Lib) (m : bodegaManager) (w : World) : Outcome JObj × World :=
  let r := m.ownerSid lib w
  match r.1 with
  | Outcome.error e => (Outcome.error ("unable to get user\x27s sid: " ++ e), r.2)
  | Outcome.panic p => (Outcome.panic p, r.2)
  | Outcome.ok ownerSid =>
    let u : URL :=
      ⟨urlScheme, urlHost, urlPathOrders, [("owner_sid", ownerSid), ("status_live", "true")]⟩
    let r2 := m.client.get lib u r.2
    match r2.1 with
    | Except.error e => (Outcome.error e, r2.2)
    | Except.ok orders => (Outcome.ok orders, r2.2)

/-- Source `bodegaManager.fulfilled`.  The comparison `status == "FULFILLED"` of an
interface value with a string holds exactly when the value is that string. -/
def bodegaManager.fulfilled (lib : Lib) (m : bodegaManager) (orderID : String) (w : World) :
    Bool × World :=
  let r := m.consumeOrder lib orderID w
  match r.1 with
  | Except.error _ => (false, r.2)
  | Except.ok order =>
    match order.lookup "status" with
    | some (JVal.str status) => if status = "FULFILLED" then (true, r.2) else (false, r.2)
    | _ => (false, r.2)

/-- The loop of `liveOrderIDs` over the elements of `results`. -/
def collectSids (orderIDs : List String) : List JVal → Outcome (List String)
  | [] => Outcome.ok orderIDs
  | JVal.obj orderMap :: rest =>
    match orderMap.lookup "sid" with
    | some (JVal.str orderID) => collectSids (orderIDs ++ [orderID]) rest
    | _ => Outcome.panic assertionPanic
  | _ :: _ => Outcome.panic assertionPanic

/-- Source `bodegaManager.liveOrderIDs`. -/
def bodegaManager.liveOrderIDs (lib : Lib) (m : bodegaManager) (w : World) :
    Outcome (List String) × World :=
  let r := m.listOrders lib w
  match r.1 with
  | Outcome.error e => (Outcome.error ("unable to list orders: " ++ e), r.2)
  | Outcome.panic p => (Outcome.panic p, r.2)
  | Outcome.ok orders =>
    match orders.lookup "results" with
    | none => (Outcome.error "no key named \x27results\x27 in orders", r.2)
    | some (JVal.arr results) => (collectSids [] results, r.2)
    | some _ => (Outcome.panic assertionPanic, r.2)

/-- The loop of `orderToMachineMap` that copies the live entries into a new map. -/
def liveFilter (liveOrderIDs : List String) (orderMap : Entries) : Entries :=
  orderMap.foldl
    (fun liveOrderMap e => if inSlice e.1 liveOrderIDs then setEntry e.1 e.2 liveOrderMap
      else liveOrderMap) []

/-- Source `bodegaManager.orderToMachineMap`. -/
def bodegaManager.orderToMachineMap (lib : Lib) (m : bodegaManager) (w : World) :
    Outcome OrderMap × World :=
  let r := m.liveOrderIDs lib w
  match r.1 with
  | Outcome.error e => (Outcome.error e, r.2)
  | Outcome.panic p => (Outcome.panic p, r.2)
  | Outcome.ok liveOrderIDs =>
    match r.2.fs m.bodegaOrderPath with
    | FileState.absent => (Outcome.ok OrderMap.nilMap, r.2)
    | FileState.unreadable e =>
      (Outcome.error ("problem opening file " ++ m.bodegaOrderPath ++ ": " ++ e), r.2)
    | FileState.content data =>
      match lib.decodeOrders data with
      | Except.error e =>
        (Outcome.error ("unable to decode file " ++ m.bodegaOrderPath ++ ": " ++ e), r.2)
      | Except.ok decoded =>
        (Outcome.ok (OrderMap.mk (liveFilter liveOrderIDs (decodedMap decoded).entries)), r.2)

/-- Go `ioutil.WriteFile (path, data, 0644)`. -/
def writeFile (path : String) (data : String) (w : World) : Except String Unit × World :=
  match w.writeFault with
  | some (e, left) =>
    (Except.error e, { w with fs := fun p => if p = path then left else w.fs p })
  | none =>
    (Except.ok (), { w with fs := fun p => if p = path then FileState.content data else w.fs p })

/-- Source `bodegaManager.saveOrderInfo`. -/
def bodegaManager.saveOrderInfo (lib : Lib) (m : bodegaManager) (orderMap : OrderMap)
    (w : World) : Except String Unit × World :=
  match lib.marshalIndent orderMap with
  | Except.error e => (Except.error ("unable to marshal JSON: " ++ e), w)
  | Except.ok json => writeFile m.bodegaOrderPath json w

/-- Source `bodegaManager.addOrderInfo`.  Assigning into a nil map panics. -/
def bodegaManager.addOrderInfo (lib : Lib) (m : bodegaManager) (orderID : String)
    (names : List String) (w : World) : Outcome Unit × World :=
  let r := m.orderToMachineMap lib w
  match r.1 with
  | Outcome.error e => (Outcome.error ("unable to get order to machine map: " ++ e), r.2)
  | Outcome.panic p => (Outcome.panic p, r.2)
  | Outcome.ok OrderMap.nilMap => (Outcome.panic "assignment to entry in nil map", r.2)
  | Outcome.ok (OrderMap.mk es) =>
    let r2 := m.saveOrderInfo lib (OrderMap.mk (setEntry orderID names es)) r.2
    match r2.1 with
    | Except.error e => (Outcome.error ("unable to save order info to file: " ++ e), r2.2)
    | Except.ok _ => (Outcome.ok (), r2.2)

/-- The fields of `vm.VM` (package vm) that this package sets; the others keep
their zero value. -/
structure VM where
  Name : String
  Provider : String
  ProviderID : String
  CreatedAt : Int
  PublicIP : String
  RemoteUser : String
  Zone : String

/-- Modelled from the spec: `vm.List.Names` of package vm, which is not among the
source files; the error of `orderIDOfVMs` names the machines, so `Names` gives the
name of each machine, in order. -/
def vmNames (vms : List VM) : List String := vms.map (fun v => v.Name)

/-- Names separated by single blanks. -/
def joinNames : List String → String
  | [] => ""
  | [a] => a
  | a :: b :: rest => a ++ " " ++ joinNames (b :: rest)

/-- The verb `%v` of `fmt` on a `[]string`. -/
def fmtVStrings (xs : List String) : String := "[" ++ joinNames xs ++ "]"

/-- The search loop of `orderIDOfVMs`. -/
def findOrder (name : String) : Entries → Option String
  | [] => none
  | (orderID, machines) :: rest =>
    if inSlice name machines then some orderID else findOrder name rest

/-- Source `bodegaManager.orderIDOfVMs`. -/
def bodegaManager.orderIDOfVMs (lib : Lib) (m : bodegaManager) (vms : List VM) (w : World) :
    Outcome String × World :=
  match vms with
  | [] => (Outcome.error "no machine provided", w)
  | vm0 :: _ =>
    let r := m.orderToMachineMap lib w
    match r.1 with
    | Outcome.error e => (Outcome.error ("unable to get order to machine map: " ++ e), r.2)
    | Outcome.panic p => (Outcome.panic p, r.2)
    | Outcome.ok orderMap =>
      match findOrder vm0.Name orderMap.entries with
      | some orderID => (Outcome.ok orderID, r.2)
      | none =>
        (Outcome.error ("unable to find orderID for machines: " ++ fmtVStrings (vmNames vms)), r.2)

/-! ## provider.go -/

def ProviderName : String := "bodega"
def numRetries : Nat := 30

structure Provider where
  opts : providerOpts
  manager : bodegaManager

/-- Go `time.Sleep (1 * time.Minute)`. -/
def sleepMinute (w : World) : World := { w with slept := w.slept + 1 }

/-- How the polling loop of `Create` is left, with the value of its counter. -/
inductive PollExit where
  | fulfilledAt (t : Nat)
  | timedOut (t : Nat)

/-- The loop `for t := 0; !fulfilled (orderID); t++` of `Create`, started with the
counter at `t`; `none` when the fuel runs out. -/
def pollLoop (lib : Lib) (m : bodegaManager) (orderID : String) :
    Nat → Nat → World → Option (PollExit × World)
  | 0, _, _ => none
  | fuel + 1, t, w =>
    let r := m.fulfilled lib orderID w
    if r.1 then some (PollExit.fulfilledAt t, r.2)
    else if t ≥ numRetries then some (PollExit.timedOut t, r.2)
    else pollLoop lib m orderID fuel (t + 1) (sleepMinute r.2)

/-- Source `Provider.Create`; its unused argument `opts vm.CreateOpts` is left out. -/
def Provider.Create (lib : Lib) (p : Provider) (names : List String) (fuel : Nat) (w : World) :
    Option (Outcome Unit × World) :=
  let r := p.manager.placeOrder lib names p.opts w
  match r.1 with
  | Outcome.error e => some (Outcome.error ("failed to place order with Bodega: " ++ e), r.2)
  | Outcome.panic q => some (Outcome.panic q, r.2)
  | Outcome.ok orderID =>
    match pollLoop lib p.manager orderID fuel 0 r.2 with
    | none => none
    | some (PollExit.timedOut t, w2) =>
      some (Outcome.error ("order not fulfilled after " ++ fmtD t ++ " minutes"), w2)
    | some (PollExit.fulfilledAt _, w2) => some (p.manager.addOrderInfo lib orderID names w2)

/-- Reading a string field of a fulfilled item with an unchecked assertion. -/
def stringField (specMap : JObj) (k : String) : Outcome String :=
  match specMap.lookup k with
  | some (JVal.str s) => Outcome.ok s
  | _ => Outcome.panic assertionPanic

/-- The body of the inner loop of `List`: the record of one fulfilled item. -/
def machineOf (lib : Lib) (name : String) (spec : JVal) : Outcome VM :=
  match spec with
  | JVal.obj specMap =>
    match stringField specMap "time_created" with
    | Outcome.error e => Outcome.error e
    | Outcome.panic q => Outcome.panic q
    | Outcome.ok ts =>
      match lib.parseRFC3339 ts with
      | Except.error e => Outcome.error ("unable to parse time string: " ++ e)
      | Except.ok createTime =>
        match stringField specMap "ipv4" with
        | Outcome.error e => Outcome.error e
        | Outcome.panic q => Outcome.panic q
        | Outcome.ok ip =>
          match stringField specMap "username" with
          | Outcome.error e => Outcome.error e
          | Outcome.panic q => Outcome.panic q
          | Outcome.ok user =>
            match stringField specMap "location" with
            | Outcome.error e => Outcome.error e
            | Outcome.panic q => Outcome.panic q
            | Outcome.ok zone =>
              Outcome.ok ⟨name, ProviderName, ProviderName, createTime, ip, user, zone⟩
  | _ => Outcome.panic assertionPanic

/-- The inner loop of `List` over the fulfilled items of one order. -/
def machinesOf (lib : Lib) (allMachines : List VM) : JObj → Outcome (List VM)
  | [] => Outcome.ok allMachines
  | (name, spec) :: rest =>
    match machineOf lib name spec with
    | Outcome.error e => Outcome.error e
    | Outcome.panic q => Outcome.panic q
    | Outcome.ok newMachine => machinesOf lib (allMachines ++ [newMachine]) rest

/-- The outer loop of `List` over the live registered orders. -/
def listLoop (lib : Lib) (m : bodegaManager) (allMachines : List VM) :
    Entries → World → Outcome (List VM) × World
  | [], w => (Outcome.ok allMachines, w)
  | (orderID, _) :: rest, w =>
    let r := m.getOrder lib orderID w
    match r.1 with
    | Except.error e => (Outcome.error ("unable to consume order " ++ orderID ++ ": " ++ e), r.2)
    | Except.ok order =>
      match order.lookup "fulfilled_items" with
      | some (JVal.obj machines) =>
        match machinesOf lib allMachines machines with
        | Outcome.error e => (Outcome.error e, r.2)
        | Outcome.panic q => (Outcome.panic q, r.2)
        | Outcome.ok all2 => listLoop lib m all2 rest r.2
      | _ => (Outcome.panic assertionPanic, r.2)

/-- Source `Provider.List`. -/
def Provider.List (lib : Lib) (p : Provider) (w : World) : Outcome (List VM) × World :=
  let r := p.manager.orderToMachineMap lib w
  match r.1 with
  | Outcome.error e => (Outcome.error e, r.2)
  | Outcome.panic q => (Outcome.panic q, r.2)
  | Outcome.ok orderMap => listLoop lib p.manager [] orderMap.entries r.2

/-! ## Auxiliary notions for the statements -/

/-- The files, the write fault and the minutes slept are the same in both worlds. -/
def Stable (w w1 : World) : Prop :=
  w1.fs = w.fs ∧ w1.writeFault = w.writeFault ∧ w1.slept = w.slept


/-- The world in which the poll with counter value `k` is made, as long as no
earlier poll was answered with true: `k` polls and `k` sleeps after `w`. -/
def pollWorld (lib : Lib) (m : bodegaManager) (orderID : String) (w : World) : Nat → World
  | 0 => w
  | k + 1 => sleepMinute (m.fulfilled lib orderID (pollWorld lib m orderID w k)).2

/-- The answer of the poll made with counter value `k`. -/
def pollAnswer (lib : Lib) (m : bodegaManager) (orderID : String) (w : World) (k : Nat) : Bool :=
  (m.fulfilled lib orderID (pollWorld lib m orderID w k)).1

/-- The message contains the name as a contiguous piece of text. -/
def mentions (msg name : String) : Prop := name.data <:+: msg.data

instance (msg name : String) : Decidable (mentions msg name) := by
  unfold mentions
  infer_instance

/-- Specification side of `List`: the string stored under a key, if there is one. -/
def stringAt (fields : JObj) (k : String) : Option String :=
  match fields.lookup k with
  | some (JVal.str s) => some s
  | _ => none

/-- Specification side of `List`: the machine record of a fulfilled item whose four
fields are present, are strings, and whose creation time is in RFC 3339 form. -/
def recordOf (lib : Lib) (name : String) (spec : JVal) : Option VM :=
  match spec with
  | JVal.obj fields =>
    match stringAt fields "time_created", stringAt fields "ipv4", stringAt fields "username",
      stringAt fields "location" with
    | some ts, some ip, some user, some zone =>
      match lib.parseRFC3339 ts with
      | Except.ok created => some ⟨name, "bodega", "bodega", created, ip, user, zone⟩
      | Except.error _ => none
    | _, _, _, _ => none
  | _ => none

/-- Specification side of `List`: one record per fulfilled item, if every item is
well formed. -/
def recordsOf (lib : Lib) : JObj → Option (List VM)
  | [] => some []
  | (name, spec) :: rest =>
    match recordOf lib name spec, recordsOf lib rest with
    | some v, some vs => some (v :: vs)
    | _, _ => none

/-- Specification side of `List`: the records of the fulfilled items of every
registered live order, if every order can be fetched and every item is well formed. -/
def listSpec (lib : Lib) (m : bodegaManager) : Entries → World → Option (List VM)
  | [], _ => some []
  | (orderID, _) :: rest, w =>
    match (m.getOrder lib orderID w).1 with
    | Except.error _ => none
    | Except.ok order =>
      match order.lookup "fulfilled_items" with
      | some (JVal.obj items) =>
        match recordsOf lib items, listSpec lib m rest (m.getOrder lib orderID w).2 with
        | some a, some b => some (a ++ b)
        | _, _ => none
      | _ => none

/-! ## A sample environment -/

/-- A service that answers the n-th request with status 200 and the n-th body of
a script, and refuses the connection once the script is used up. -/
def scripted (bodies : List String) : Nat → Request → DoResult :=
  fun n _ =>
    match bodies.get? n with
    | some b => DoResult.resp ⟨200, "200 OK", Except.ok b⟩
    | none => DoResult.failed "connection refused"

/-- A library instance with a table-driven JSON codec. -/
def sampleLib : Lib where
  urlString := fun u => u.scheme ++ "://" ++ u.host ++ "/" ++ u.path
  newRequest := fun _ _ => none
  jsonMarshal := fun _ => Except.ok "payload"
  sprintV := fun _ => "map"
  jsonDecodeObject := fun body =>
    if body = "placed" then Except.ok [("sid", JVal.str "X")]
    else if body = "profile" then Except.ok [("sid", JVal.str "me")]
    else if body = "fulfilled" then Except.ok [("status", JVal.str "FULFILLED")]
    else if body = "open" then Except.ok [("status", JVal.str "OPEN")]
    else if body = "live:" then Except.ok [("results", JVal.arr [])]
    else if body = "live:X" then
      Except.ok [("results", JVal.arr [JVal.obj [("sid", JVal.str "X")]])]
    else if body = "live:X,Y" then
      Except.ok [("results",
        JVal.arr [JVal.obj [("sid", JVal.str "X")], JVal.obj [("sid", JVal.str "Y")]])]
    else if body = "order:bare" then Except.ok [("status", JVal.str "FULFILLED")]
    else if body = "order:vm1" then
      Except.ok [("fulfilled_items", JVal.obj [("vm1", JVal.obj
        [("time_created", JVal.str "2019-01-01T00:00:00Z"), ("ipv4", JVal.str "10.0.0.1"),
         ("username", JVal.str "ubuntu"), ("location", JVal.str "AWS-US-WEST-1")])])]
    else if body = "order:noip" then
      Except.ok [("fulfilled_items", JVal.obj [("vm1", JVal.obj
        [("time_created", JVal.str "2019-01-01T00:00:00Z"),
         ("username", JVal.str "ubuntu"), ("location", JVal.str "AWS-US-WEST-1")])])]
    else Except.error "invalid character"
  marshalIndent := fun m =>
    match m with
    | OrderMap.nilMap => Except.ok "null"
    | OrderMap.mk es =>
      if es = [("X", ["vm1"])] then Except.ok "X=vm1"
      else if es = [("X", ["a", "b", "c"])] then Except.ok "X=a,b,c"
      else if es = [("Y", ["d"]), ("X", ["a", "b", "c"])] then Except.ok "Y=d;X=a,b,c"
      else if es = [("Y", ["d"]), ("X", ["vm1"])] then Except.ok "Y=d;X=vm1"
      else Except.ok "other"
  decodeOrders := fun data =>
    if data = "null" then Except.ok none
    else if data = "" then Except.ok (some [])
    else if data = "X=vm1" then Except.ok (some [("X", ["vm1"])])
    else if data = "X=a,b,c" then Except.ok (some [("X", ["a", "b", "c"])])
    else if data = "Y=d" then Except.ok (some [("Y", ["d"])])
    else if data = "Y=d;X=a,b,c" then Except.ok (some [("Y", ["d"]), ("X", ["a", "b", "c"])])
    else if data = "Y=d;X=vm1" then Except.ok (some [("Y", ["d"]), ("X", ["vm1"])])
    else Except.error "invalid character"
  parseRFC3339 := fun s =>
    if s = "2019-01-01T00:00:00Z" then Except.ok 1546300800 else Except.error "cannot parse"

def sampleManager : bodegaManager := ⟨"/home/u/.roachprod/bodega_orders", ⟨"Token t"⟩⟩

def sampleProvider : Provider := ⟨⟨32, "AWS-US-WEST-1", "aws-m4.large"⟩, sampleManager⟩

/-- A world whose service follows a script and whose registry file is in the
given state; writes succeed. -/
def sampleWorld (bodies : List String) (file : FileState) : World where
  remote := scripted bodies
  calls := 0
  fs := fun p => if p = sampleManager.bodegaOrderPath then file else FileState.absent
  writeFault := none
  slept := 0

/-- A run in which the order is placed, the first poll finds it fulfilled and the
listing reports no live order, over a registry that holds order Y. -/
def promptWorld : World :=
  sampleWorld ["placed", "fulfilled", "profile", "live:"] (FileState.content "Y=d")

/-- The run of `promptWorld` over a registry file that is not JSON. -/
def corruptWorld : World :=
  sampleWorld ["placed", "fulfilled", "profile", "live:"] (FileState.content "garbage")

/-- A run of `Create` followed by a read of the registry, with the orders X and Y
live at both listings, over a registry that holds order Y. -/
def sharedWorld : World :=
  sampleWorld ["placed", "fulfilled", "profile", "live:X,Y", "profile", "live:X,Y"]
    (FileState.content "Y=d")

/-- The world `Create` leaves when run for the machines a, b, c in `sharedWorld`. -/
def sharedWorldAfter : World :=
  (sampleManager.addOrderInfo sampleLib "X" ["a", "b", "c"]
    (sampleManager.fulfilled sampleLib "X"
      (sampleManager.placeOrder sampleLib ["a", "b", "c"] sampleProvider.opts sharedWorld).2).2).2

/-- A machine record that carries only a name. -/
def machineNamed (name : String) : VM := ⟨name, "", "", 0, "", "", ""⟩

/-- The service cannot be reached; the registry holds order Y with machine d. -/
def unreachableWorld : World := sampleWorld [] (FileState.content "Y=d")

/-- Order X is registered and live; the service reports one fulfilled item, vm1,
that has no `ipv4` field. -/
def noAddressWorld : World :=
  sampleWorld ["profile", "live:X", "order:noip"] (FileState.content "X=vm1")

/-- Order X is registered and live; its one fulfilled item, vm1, is complete. -/
def listedWorld : World :=
  sampleWorld ["profile", "live:X", "order:vm1"] (FileState.content "X=vm1")

/-- The first `Create` on a machine that has no registry file yet: the order is
placed with sid X, the first poll finds it fulfilled, the listing reports no live
order. -/
def freshWorld : World :=
  sampleWorld ["placed", "fulfilled", "profile", "live:"] FileState.absent

/-! ## Duration formatting -/

theorem fmt02d_twoDigits (n : Nat) (h : n < 100) : fmt02d (n : Int) = twoDigits n := by
  interval_cases n <;> rfl

theorem fmtD_natCast (n : Nat) : fmtD (n : Int) = toString n := rfl

theorem tdiv_natCast (a b : Nat) : Int.tdiv (a : Int) (b : Int) = ((a / b : Nat) : Int) := by
  rw [Int.tdiv_eq_ediv (Int.ofNat_nonneg a) (Int.ofNat_nonneg b)]
  exact (Int.natCast_div a b).symm

theorem tmod_natCast (a b : Nat) : Int.tmod (a : Int) (b : Int) = ((a % b : Nat) : Int) := by
  rw [Int.tmod_eq_emod (Int.ofNat_nonneg a) (Int.ofNat_nonneg b)]
  exact (Int.natCast_mod a b).symm

theorem seconds_split (s : Nat) :
    s % 86400 % 3600 / 60 = s % 3600 / 60 ∧
    ((s % 86400 % 3600 : Nat) : Int) - ((s % 86400 % 3600 / 60 : Nat) : Int) * 60
      = ((s % 60 : Nat) : Int) := by
  omega

theorem convert_natCast (s : Nat) :
    convert (s : Int) =
      if s / 86400 = 0 then
        fmt02d ((s % 86400 / 3600 : Nat) : Int) ++ ":" ++ fmt02d ((s % 3600 / 60 : Nat) : Int)
          ++ ":" ++ fmt02d ((s % 60 : Nat) : Int)
      else fmtD ((s / 86400 : Nat) : Int) ++ " " ++
        fmt02d ((s % 86400 / 3600 : Nat) : Int) ++ ":" ++ fmt02d ((s % 3600 / 60 : Nat) : Int)
          ++ ":" ++ fmt02d ((s % 60 : Nat) : Int) := by
  have hd : oneDayInSeconds = ((86400 : Nat) : Int) := rfl
  have hh : oneHourInSeconds = ((3600 : Nat) : Int) := rfl
  have hm : oneMinuteInSeconds = ((60 : Nat) : Int) := rfl
  unfold convert
  simp only [hd, hh, hm, tdiv_natCast, tmod_natCast]
  rw [(seconds_split s).1]
  have h2 := (seconds_split s).2
  rw [(seconds_split s).1] at h2
  simp only [Nat.cast_ofNat] at h2 ⊢
  rw [h2]
  simp only [Int.natCast_eq_zero]

/-- C3: for a whole number `s` of seconds, `convert` gives `HH:MM:SS` below one day
and `D HH:MM:SS` from one day on, with `D = s / 86400` in plain decimal and
`HH = s % 86400 / 3600`, `MM = s % 3600 / 60`, `SS = s % 60` each on two digits;
the parts are in range and add up to `s`; 90061 s is `1 01:01:01` and 3661 s is
`01:01:01`. -/
theorem convert_wholeSeconds (s : Nat) :
    convert (s : Int) =
        (if s < 86400 then clockText s else toString (s / 86400) ++ " " ++ clockText s)
      ∧ s % 86400 / 3600 < 24 ∧ s % 3600 / 60 < 60 ∧ s % 60 < 60
      ∧ s / 86400 * 86400 + s % 86400 / 3600 * 3600 + s % 3600 / 60 * 60 + s % 60 = s
      ∧ convert 90061 = "1 01:01:01" ∧ convert 3661 = "01:01:01" := by
  have hH : s % 86400 / 3600 < 24 := by omega
  have hM : s % 3600 / 60 < 60 := by omega
  have hS : s % 60 < 60 := by omega
  refine ⟨?_, hH, hM, hS, by omega, by decide, by decide⟩
  rw [convert_natCast, fmt02d_twoDigits _ (by omega), fmt02d_twoDigits _ (by omega),
    fmt02d_twoDigits _ (by omega), fmtD_natCast]
  by_cases hs : s < 86400
  · have h0 : s / 86400 = 0 := by omega
    simp only [h0, hs, if_true, clockText]
  · have h0 : ¬ s / 86400 = 0 := by omega
    simp only [h0, hs, if_false, clockText, String.append_assoc]

/-! ## What the network calls leave unchanged -/

theorem Stable.rfl_ (w : World) : Stable w w := ⟨rfl, rfl, rfl⟩

theorem Stable.trans_ {a b c : World} (h1 : Stable a b) (h2 : Stable b c) : Stable a c :=
  ⟨h2.1.trans h1.1, h2.2.1.trans h1.2.1, h2.2.2.trans h1.2.2⟩

theorem get_stable (lib : Lib) (c : httpClient) (url : URL) (w : World) :
    Stable w (c.get lib url w).2 := by
  unfold httpClient.get
  split
  · exact Stable.rfl_ w
  · dsimp only
    split <;> exact ⟨rfl, rfl, rfl⟩

theorem post_stable (lib : Lib) (c : httpClient) (url : URL) (b : String) (w : World) :
    Stable w (c.post lib url b w).2 := by
  unfold httpClient.post
  split
  · exact Stable.rfl_ w
  · dsimp only
    split <;> exact ⟨rfl, rfl, rfl⟩

theorem postDataToPath_stable (lib : Lib) (m : bodegaManager) (path : String) (data : JObj)
    (w : World) : Stable w (m.postDataToPath lib path data w).2 := by
  unfold bodegaManager.postDataToPath
  split
  · exact Stable.rfl_ w
  · exact post_stable _ _ _ _ _

theorem placeOrder_stable (lib : Lib) (m : bodegaManager) (names : List String)
    (opts : providerOpts) (w : World) : Stable w (m.placeOrder lib names opts w).2 := by
  unfold bodegaManager.placeOrder
  dsimp only
  split
  · exact Stable.rfl_ w
  · split
    · exact postDataToPath_stable _ _ _ _ _
    · split <;> exact postDataToPath_stable _ _ _ _ _

theorem consumeOrder_stable (lib : Lib) (m : bodegaManager) (orderID : String) (w : World) :
    Stable w (m.consumeOrder lib orderID w).2 :=
  get_stable _ _ _ _

theorem fulfilled_stable (lib : Lib) (m : bodegaManager) (orderID : String) (w : World) :
    Stable w (m.fulfilled lib orderID w).2 := by
  unfold bodegaManager.fulfilled
  dsimp only
  split
  · exact consumeOrder_stable _ _ _ _
  · split
    · split <;> exact consumeOrder_stable _ _ _ _
    · exact consumeOrder_stable _ _ _ _

theorem ownerSid_stable (lib : Lib) (m : bodegaManager) (w : World) :
    Stable w (m.ownerSid lib w).2 := by
  unfold bodegaManager.ownerSid
  dsimp only
  split
  · exact get_stable _ _ _ _
  · split <;> exact get_stable _ _ _ _

theorem listOrders_stable (lib : Lib) (m : bodegaManager) (w : World) :
    Stable w (m.listOrders lib w).2 := by
  unfold bodegaManager.listOrders
  dsimp only
  split
  · exact ownerSid_stable _ _ _
  · exact ownerSid_stable _ _ _
  · split <;> exact (ownerSid_stable _ _ _).trans_ (get_stable _ _ _ _)

theorem liveOrderIDs_stable (lib : Lib) (m : bodegaManager) (w : World) :
    Stable w (m.liveOrderIDs lib w).2 := by
  unfold bodegaManager.liveOrderIDs
  dsimp only
  split
  · exact listOrders_stable _ _ _
  · exact listOrders_stable _ _ _
  · split <;> exact listOrders_stable _ _ _

theorem orderToMachineMap_world (lib : Lib) (m : bodegaManager) (w : World) :
    (m.orderToMachineMap lib w).2 = (m.liveOrderIDs lib w).2 := by
  unfold bodegaManager.orderToMachineMap
  dsimp only
  split
  · rfl
  · rfl
  · split
    · rfl
    · rfl
    · split <;> rfl

theorem orderToMachineMap_stable (lib : Lib) (m : bodegaManager) (w : World) :
    Stable w (m.orderToMachineMap lib w).2 := by
  rw [orderToMachineMap_world]
  exact liveOrderIDs_stable _ _ _

/-! ## The order status poll -/

/-- C7: `fulfilled` returns a boolean, never an error; it is true exactly when
`consumeOrder` succeeds with an order whose `status` is the string `FULFILLED`, and
false whenever `consumeOrder` fails. -/
theorem fulfilled_iff_status (lib : Lib) (m : bodegaManager) (orderID : String) (w : World) :
    ((m.fulfilled lib orderID w).1 = true ↔
        ∃ order, (m.consumeOrder lib orderID w).1 = Except.ok order ∧
          order.lookup "status" = some (JVal.str "FULFILLED"))
      ∧ (∀ e, (m.consumeOrder lib orderID w).1 = Except.error e →
          (m.fulfilled lib orderID w).1 = false) := by
  unfold bodegaManager.fulfilled
  dsimp only
  cases hc : (m.consumeOrder lib orderID w).1 with
  | error e => simp
  | ok order =>
    cases hl : List.lookup "status" order with
    | none => simp [hl]
    | some v =>
      cases v with
      | str s =>
        by_cases hs : s = "FULFILLED"
        · subst hs
          simp [hl]
        · simp [hl, hs]
      | _ => simp [hl]

/-! ## Maps as association lists -/

theorem inSlice_iff (s : String) (l : List String) : inSlice s l = true ↔ s ∈ l := by
  induction l with
  | nil => simp [inSlice]
  | cons a rest ih =>
    unfold inSlice
    by_cases h : s = a
    · simp [h]
    · simp [h, ih]

theorem setEntry_keys_of_mem (k : String) (v : List String) (es : Entries)
    (h : k ∈ es.map Prod.fst) : (setEntry k v es).map Prod.fst = es.map Prod.fst := by
  induction es with
  | nil => simp at h
  | cons e rest ih =>
    obtain ⟨k1, v1⟩ := e
    unfold setEntry
    by_cases hk : k1 = k
    · simp [hk]
    · have hr : k ∈ rest.map Prod.fst := by
        simp only [List.map_cons, List.mem_cons] at h
        rcases h with h | h
        · exact absurd h.symm hk
        · exact h
      simp [hk, ih hr]

theorem setEntry_of_not_mem (k : String) (v : List String) (es : Entries)
    (h : k ∉ es.map Prod.fst) : setEntry k v es = es ++ [(k, v)] := by
  induction es with
  | nil => rfl
  | cons e rest ih =>
    obtain ⟨k1, v1⟩ := e
    simp only [List.map_cons, List.mem_cons, not_or] at h
    unfold setEntry
    have hk : ¬ k1 = k := fun hh => h.1 hh.symm
    simp [hk, ih h.2]

theorem setEntry_nodup (k : String) (v : List String) (es : Entries)
    (h : (es.map Prod.fst).Nodup) : ((setEntry k v es).map Prod.fst).Nodup := by
  by_cases hk : k ∈ es.map Prod.fst
  · rw [setEntry_keys_of_mem k v es hk]
    exact h
  · rw [setEntry_of_not_mem k v es hk]
    simp only [List.map_append, List.map_cons, List.map_nil]
    exact List.Nodup.append h (List.nodup_singleton k) (by simpa using hk)

theorem lookup_cons_ite (j k1 : String) (v1 : List String) (rest : Entries) :
    List.lookup j ((k1, v1) :: rest) = if j = k1 then some v1 else List.lookup j rest := by
  by_cases h : j = k1
  · subst h
    simp [List.lookup]
  · have hb : (j == k1) = false := by simpa using h
    simp [List.lookup, hb, h]

theorem lookup_setEntry (k : String) (v : List String) (es : Entries) (j : String) :
    (setEntry k v es).lookup j = if j = k then some v else es.lookup j := by
  induction es with
  | nil =>
    by_cases hj : j = k
    · simp [setEntry, lookup_cons_ite, hj]
    · simp [setEntry, lookup_cons_ite, hj]
  | cons e rest ih =>
    obtain ⟨k1, v1⟩ := e
    unfold setEntry
    by_cases hk : k1 = k
    · subst hk
      by_cases hj : j = k1
      · simp [lookup_cons_ite, hj]
      · simp [lookup_cons_ite, hj]
    · simp only [hk, if_false]
      by_cases hj1 : j = k1
      · subst hj1
        simp [lookup_cons_ite, hk]
      · simp [lookup_cons_ite, hj1, ih]

theorem fromPairs_nodup_aux (ps acc : Entries) (h : (acc.map Prod.fst).Nodup) :
    ((ps.foldl (fun acc p => setEntry p.1 p.2 acc) acc).map Prod.fst).Nodup := by
  induction ps generalizing acc with
  | nil => exact h
  | cons p rest ih => exact ih _ (setEntry_nodup _ _ _ h)

theorem fromPairs_nodup (ps : Entries) : ((fromPairs ps).map Prod.fst).Nodup :=
  fromPairs_nodup_aux ps [] List.nodup_nil

theorem decodedMap_nodup (d : Option Entries) : ((decodedMap d).entries.map Prod.fst).Nodup := by
  cases d with
  | none => exact List.nodup_nil
  | some ps => exact fromPairs_nodup ps

/-- Lookup in the fold of `liveFilter`, started from any map `acc`. -/
theorem lookup_liveFold (L : List String) (es acc : Entries) (j : String)
    (hn : (es.map Prod.fst).Nodup) :
    (es.foldl (fun liveOrderMap e =>
        if inSlice e.1 L then setEntry e.1 e.2 liveOrderMap else liveOrderMap) acc).lookup j
      = if j ∈ es.map Prod.fst ∧ j ∈ L then es.lookup j else acc.lookup j := by
  induction es generalizing acc with
  | nil => simp
  | cons e rest ih =>
    obtain ⟨k1, v1⟩ := e
    simp only [List.map_cons, List.nodup_cons] at hn
    rw [List.foldl_cons, ih _ hn.2]
    by_cases hj : j = k1
    · subst hj
      by_cases hl : j ∈ L
      · have hin : inSlice j L = true := (inSlice_iff j L).2 hl
        simp [hn.1, hl, hin, lookup_setEntry, lookup_cons_ite]
      · have hin : ¬ inSlice j L = true := fun hh => hl ((inSlice_iff j L).1 hh)
        simp [hn.1, hl, hin]
    · by_cases hr : j ∈ rest.map Prod.fst ∧ j ∈ L
      · have h1 : j ∈ (k1 :: rest.map Prod.fst) ∧ j ∈ L := ⟨List.mem_cons_of_mem _ hr.1, hr.2⟩
        simp only [List.map_cons, hr, h1, and_self, if_true]
        simp [lookup_cons_ite, hj]
      · have h1 : ¬ (j ∈ (k1 :: rest.map Prod.fst) ∧ j ∈ L) := by
          intro hh
          apply hr
          refine ⟨?_, hh.2⟩
          rcases List.mem_cons.1 hh.1 with h | h
          · exact absurd h hj
          · exact h
        simp only [List.map_cons, hr, h1, if_false]
        by_cases hin : inSlice k1 L = true
        · simp [hin, lookup_setEntry, hj]
        · simp [hin]

theorem lookup_eq_none_of_not_mem (es : Entries) (j : String) (h : j ∉ es.map Prod.fst) :
    es.lookup j = none := by
  induction es with
  | nil => rfl
  | cons e rest ih =>
    obtain ⟨k1, v1⟩ := e
    simp only [List.map_cons, List.mem_cons, not_or] at h
    simp [lookup_cons_ite, h.1, ih h.2]

theorem lookup_liveFilter (L : List String) (es : Entries) (j : String)
    (hn : (es.map Prod.fst).Nodup) :
    (liveFilter L es).lookup j = if j ∈ L then es.lookup j else none := by
  unfold liveFilter
  rw [lookup_liveFold L es [] j hn]
  by_cases hl : j ∈ L
  · by_cases hm : j ∈ es.map Prod.fst
    · simp [hl, hm]
    · have := lookup_eq_none_of_not_mem es j hm
      simp [hl, hm, this]
  · simp [hl]

theorem liveFilter_nodup (L : List String) (es acc : Entries) (h : (acc.map Prod.fst).Nodup) :
    ((es.foldl (fun liveOrderMap e =>
        if inSlice e.1 L then setEntry e.1 e.2 liveOrderMap else liveOrderMap) acc).map
      Prod.fst).Nodup := by
  induction es generalizing acc with
  | nil => exact h
  | cons e rest ih =>
    rw [List.foldl_cons]
    apply ih
    split
    · exact setEntry_nodup _ _ _ h
    · exact h

/-! ## Reading the registry -/

/-- The three ways `orderToMachineMap` ends once the live listing gave `L`. -/
theorem orderToMachineMap_of_live (lib : Lib) (m : bodegaManager) (w : World) (L : List String)
    (hlive : (m.liveOrderIDs lib w).1 = Outcome.ok L) :
    (m.orderToMachineMap lib w).1 =
      match w.fs m.bodegaOrderPath with
      | FileState.absent => Outcome.ok OrderMap.nilMap
      | FileState.unreadable e =>
        Outcome.error ("problem opening file " ++ m.bodegaOrderPath ++ ": " ++ e)
      | FileState.content data =>
        match lib.decodeOrders data with
        | Except.error e =>
          Outcome.error ("unable to decode file " ++ m.bodegaOrderPath ++ ": " ++ e)
        | Except.ok decoded => Outcome.ok (OrderMap.mk (liveFilter L (decodedMap decoded).entries)) := by
  have hfs : (m.liveOrderIDs lib w).2.fs = w.fs := (liveOrderIDs_stable lib m w).1
  unfold bodegaManager.orderToMachineMap
  simp only [hlive, hfs]
  cases w.fs m.bodegaOrderPath with
  | absent => rfl
  | unreadable e => rfl
  | content data =>
    simp only
    cases lib.decodeOrders data <;> rfl

/-- Reading a registry file that decodes, once the live listing gave `L`. -/
theorem read_registry (lib : Lib) (m : bodegaManager) (w : World)
    (L : List String) (data : String) (decoded : Option Entries)
    (hlive : (m.liveOrderIDs lib w).1 = Outcome.ok L)
    (hfile : w.fs m.bodegaOrderPath = FileState.content data)
    (hdec : lib.decodeOrders data = Except.ok decoded) :
    (m.orderToMachineMap lib w).1 =
        Outcome.ok (OrderMap.mk (liveFilter L (decodedMap decoded).entries)) ∧
      (((liveFilter L (decodedMap decoded).entries).map Prod.fst).Nodup) ∧
      ∀ id, (liveFilter L (decodedMap decoded).entries).lookup id =
        if id ∈ L then (decodedMap decoded).get? id else none := by
  refine ⟨?_, ?_, ?_⟩
  · rw [orderToMachineMap_of_live lib m w L hlive, hfile]
    simp only [hdec]
  · exact liveFilter_nodup L _ [] List.nodup_nil
  · intro id
    exact lookup_liveFilter L _ id (decodedMap_nodup decoded)

/-- C6: when the live listing gives `L` and the registry file decodes to the map `R`,
`orderToMachineMap` returns the restriction of `R` to the identifiers in `L`: a key
of the result is a key of `R` that occurs in `L`, with the machine names `R` stores,
so no entry of an order that is not live is returned. -/
theorem orderToMachineMap_restricts (lib : Lib) (m : bodegaManager) (w : World)
    (L : List String) (data : String) (decoded : Option Entries)
    (hlive : (m.liveOrderIDs lib w).1 = Outcome.ok L)
    (hfile : w.fs m.bodegaOrderPath = FileState.content data)
    (hdec : lib.decodeOrders data = Except.ok decoded) :
    ∃ M : OrderMap, (m.orderToMachineMap lib w).1 = Outcome.ok M ∧
      ((M.entries.map Prod.fst).Nodup) ∧
      ∀ id, M.get? id = if id ∈ L then (decodedMap decoded).get? id else none :=
  ⟨OrderMap.mk (liveFilter L (decodedMap decoded).entries),
    read_registry lib m w L data decoded hlive hfile hdec⟩

/-- Witness for C6: a registry holding X and Y read while only X is live. -/
theorem orderToMachineMap_restricts_witness :
    (sampleManager.liveOrderIDs sampleLib
        (sampleWorld ["profile", "live:X"] (FileState.content "Y=d;X=vm1"))).1
      = Outcome.ok ["X"] ∧
    ∃ M : OrderMap,
      (sampleManager.orderToMachineMap sampleLib
        (sampleWorld ["profile", "live:X"] (FileState.content "Y=d;X=vm1"))).1 = Outcome.ok M ∧
      ((M.entries.map Prod.fst).Nodup) ∧
      ∀ id, M.get? id =
        if id ∈ ["X"] then (decodedMap (some [("Y", ["d"]), ("X", ["vm1"])])).get? id else none :=
  ⟨rfl, orderToMachineMap_restricts sampleLib sampleManager
    (sampleWorld ["profile", "live:X"] (FileState.content "Y=d;X=vm1"))
    ["X"] "Y=d;X=vm1" (some [("Y", ["d"]), ("X", ["vm1"])]) rfl rfl rfl⟩

/-- C2 fails as stated: with no registry file and the service unreachable,
`orderToMachineMap` returns the error of the live listing. -/
theorem orderToMachineMap_absent_unreachable :
    (sampleWorld [] FileState.absent).fs sampleManager.bodegaOrderPath = FileState.absent ∧
    (sampleManager.orderToMachineMap sampleLib (sampleWorld [] FileState.absent)).1 =
      Outcome.error
        ("unable to list orders: unable to get user\x27s sid: unable to make GET request to "
          ++ "https://bodega.rubrik-lab.com/api/profile/: connection refused") :=
  ⟨rfl, rfl⟩

/-- C2 as amended: when the registry file does not exist, `orderToMachineMap`
returns the nil map, which has no entry, and no error if the live listing succeeds,
and returns the error of the live listing if that fails. -/
theorem orderToMachineMap_absent (lib : Lib) (m : bodegaManager) (w : World)
    (hfile : w.fs m.bodegaOrderPath = FileState.absent) :
    (∀ L, (m.liveOrderIDs lib w).1 = Outcome.ok L →
      (m.orderToMachineMap lib w).1 = Outcome.ok OrderMap.nilMap ∧
        OrderMap.nilMap.entries = [] ∧ ∀ id, OrderMap.nilMap.get? id = none)
    ∧ (∀ e, (m.liveOrderIDs lib w).1 = Outcome.error e →
      (m.orderToMachineMap lib w).1 = Outcome.error e) := by
  refine ⟨?_, ?_⟩
  · intro L hlive
    refine ⟨?_, rfl, fun _ => rfl⟩
    rw [orderToMachineMap_of_live lib m w L hlive, hfile]
  · intro e he
    unfold bodegaManager.orderToMachineMap
    simp only [he]

/-- Witness for C2 as amended. -/
theorem orderToMachineMap_absent_witness :
    (sampleWorld ["profile", "live:X"] FileState.absent).fs sampleManager.bodegaOrderPath
      = FileState.absent ∧
    (sampleManager.liveOrderIDs sampleLib (sampleWorld ["profile", "live:X"] FileState.absent)).1
      = Outcome.ok ["X"] ∧
    ((sampleManager.orderToMachineMap sampleLib
        (sampleWorld ["profile", "live:X"] FileState.absent)).1 = Outcome.ok OrderMap.nilMap ∧
      OrderMap.nilMap.entries = [] ∧ ∀ id, OrderMap.nilMap.get? id = none) :=
  ⟨rfl, rfl, (orderToMachineMap_absent sampleLib sampleManager
    (sampleWorld ["profile", "live:X"] FileState.absent) rfl).1 ["X"] rfl⟩

/-! ## The polling loop of Create -/

theorem pollWorld_stable (lib : Lib) (m : bodegaManager) (orderID : String) (w : World) (k : Nat) :
    (pollWorld lib m orderID w k).slept = w.slept + k ∧
      (pollWorld lib m orderID w k).fs = w.fs ∧
      (pollWorld lib m orderID w k).writeFault = w.writeFault := by
  induction k with
  | zero => exact ⟨rfl, rfl, rfl⟩
  | succ k ih =>
    have hs := fulfilled_stable lib m orderID (pollWorld lib m orderID w k)
    refine ⟨?_, ?_, ?_⟩
    · show (m.fulfilled lib orderID (pollWorld lib m orderID w k)).2.slept + 1 = w.slept + (k + 1)
      rw [hs.2.2, ih.1]
      omega
    · show (m.fulfilled lib orderID (pollWorld lib m orderID w k)).2.fs = w.fs
      rw [hs.1, ih.2.1]
    · show (m.fulfilled lib orderID (pollWorld lib m orderID w k)).2.writeFault = w.writeFault
      rw [hs.2.1, ih.2.2]

/-- With enough fuel the loop is left, whatever the service answers. -/
theorem pollLoop_isSome (lib : Lib) (m : bodegaManager) (orderID : String) (fuel t : Nat)
    (w : World) (hf : 0 < fuel) (h : numRetries + 1 ≤ fuel + t) :
    (pollLoop lib m orderID fuel t w).isSome = true := by
  induction fuel generalizing t w with
  | zero => omega
  | succ fuel ih =>
    unfold pollLoop
    dsimp only
    by_cases h1 : (m.fulfilled lib orderID w).1 = true
    · simp [h1]
    · by_cases h2 : t ≥ numRetries
      · simp [h1, h2]
      · simp only [h1, h2, if_false]
        exact ih (t + 1) _ (by omega) (by omega)

/-- No poll with a counter from `t` to the budget is answered true: the loop ends
in the timeout branch with the counter at the budget. -/
theorem pollLoop_timeout (lib : Lib) (m : bodegaManager) (orderID : String) (w0 : World)
    (fuel t : Nat) (ht : t ≤ numRetries) (h : numRetries + 1 ≤ fuel + t)
    (hno : ∀ k, t ≤ k → k ≤ numRetries → pollAnswer lib m orderID w0 k = false) :
    pollLoop lib m orderID fuel t (pollWorld lib m orderID w0 t) =
      some (PollExit.timedOut numRetries,
        (m.fulfilled lib orderID (pollWorld lib m orderID w0 numRetries)).2) := by
  induction fuel generalizing t with
  | zero => omega
  | succ fuel ih =>
    have hat : (m.fulfilled lib orderID (pollWorld lib m orderID w0 t)).1 = false :=
      hno t (Nat.le_refl t) ht
    unfold pollLoop
    dsimp only
    by_cases h2 : t ≥ numRetries
    · have he : t = numRetries := Nat.le_antisymm ht h2
      subst he
      simp [hat]
    · simp only [hat, h2, if_false, Bool.false_eq_true]
      exact ih (t + 1) (by omega) (by omega) (fun k hk1 hk2 => hno k (by omega) hk2)

/-- The first poll answered true is the one with counter `k`: the loop ends there. -/
theorem pollLoop_fulfilled (lib : Lib) (m : bodegaManager) (orderID : String) (w0 : World)
    (fuel t k : Nat) (htk : t ≤ k) (hk : k ≤ numRetries) (h : k + 1 ≤ fuel + t)
    (hno : ∀ j, t ≤ j → j < k → pollAnswer lib m orderID w0 j = false)
    (hyes : pollAnswer lib m orderID w0 k = true) :
    pollLoop lib m orderID fuel t (pollWorld lib m orderID w0 t) =
      some (PollExit.fulfilledAt k, (m.fulfilled lib orderID (pollWorld lib m orderID w0 k)).2) := by
  induction fuel generalizing t with
  | zero => omega
  | succ fuel ih =>
    unfold pollLoop
    dsimp only
    by_cases he : t = k
    · subst he
      have hat : (m.fulfilled lib orderID (pollWorld lib m orderID w0 t)).1 = true := hyes
      simp [hat]
    · have hlt : t < k := lt_of_le_of_ne htk he
      have hat : (m.fulfilled lib orderID (pollWorld lib m orderID w0 t)).1 = false :=
        hno t (Nat.le_refl t) hlt
      have h2 : ¬ t ≥ numRetries := by omega
      simp only [hat, h2, if_false, Bool.false_eq_true]
      exact ih (t + 1) (by omega) (by omega) (fun j hj1 hj2 => hno j (by omega) hj2)

/-- Either no poll up to the budget is answered true, or there is a first one. -/
theorem poll_cases (lib : Lib) (m : bodegaManager) (orderID : String) (w0 : World) :
    (∀ k, k ≤ numRetries → pollAnswer lib m orderID w0 k = false) ∨
    ∃ k, k ≤ numRetries ∧ pollAnswer lib m orderID w0 k = true ∧
      ∀ j, j < k → pollAnswer lib m orderID w0 j = false := by
  by_cases hex : ∃ k, k ≤ numRetries ∧ pollAnswer lib m orderID w0 k = true
  · right
    refine ⟨Nat.find hex, (Nat.find_spec hex).1, (Nat.find_spec hex).2, ?_⟩
    intro j hj
    have hmin := Nat.find_min hex hj
    have hjle : j ≤ numRetries := le_trans (le_of_lt hj) (Nat.find_spec hex).1
    cases hb : pollAnswer lib m orderID w0 j with
    | false => rfl
    | true => exact absurd ⟨hjle, hb⟩ hmin
  · left
    intro k hk
    cases hb : pollAnswer lib m orderID w0 k with
    | false => rfl
    | true => exact absurd ⟨k, hk, hb⟩ hex

theorem writeFile_slept (path data : String) (w : World) :
    (writeFile path data w).2.slept = w.slept := by
  unfold writeFile
  split <;> rfl

theorem addOrderInfo_slept (lib : Lib) (m : bodegaManager) (orderID : String)
    (names : List String) (w : World) :
    (m.addOrderInfo lib orderID names w).2.slept = w.slept := by
  have hs := (orderToMachineMap_stable lib m w).2.2
  unfold bodegaManager.addOrderInfo
  dsimp only
  split
  · exact hs
  · exact hs
  · exact hs
  · have hw : ∀ om, (m.saveOrderInfo lib om (m.orderToMachineMap lib w).2).2.slept = w.slept := by
      intro om
      unfold bodegaManager.saveOrderInfo
      split
      · exact hs
      · rw [writeFile_slept]
        exact hs
    split <;> exact hw _

theorem Create_of_placed (lib : Lib) (p : Provider) (names : List String) (fuel : Nat)
    (w : World) (X : String)
    (hplace : (p.manager.placeOrder lib names p.opts w).1 = Outcome.ok X) :
    p.Create lib names fuel w =
      match pollLoop lib p.manager X fuel 0 (p.manager.placeOrder lib names p.opts w).2 with
      | none => none
      | some (PollExit.timedOut t, w2) =>
        some (Outcome.error ("order not fulfilled after " ++ fmtD t ++ " minutes"), w2)
      | some (PollExit.fulfilledAt _, w2) => some (p.manager.addOrderInfo lib X names w2) := by
  unfold Provider.Create
  simp only [hplace]

/-- C10: once the order is placed the polling loop of `Create` ends; if no poll is
answered true, `Create` fails with the timeout error with the counter at the budget
of 30, after 30 sleeps of one minute and with the files untouched; if the first
poll answered true is the one with counter `k`, `Create` has slept `k` minutes and
goes on to `addOrderInfo`; the timeout branch is taken only with the counter at 30
and no poll answered true; no run sleeps more than 30 minutes. -/
theorem Create_polling (lib : Lib) (p : Provider) (names : List String) (fuel : Nat)
    (w : World) (X : String)
    (hplace : (p.manager.placeOrder lib names p.opts w).1 = Outcome.ok X)
    (hfuel : numRetries + 1 ≤ fuel) :
    (p.Create lib names fuel w).isSome = true
    ∧ ((∀ k, k ≤ numRetries →
          pollAnswer lib p.manager X (p.manager.placeOrder lib names p.opts w).2 k = false) →
        ∃ w2, p.Create lib names fuel w
            = some (Outcome.error "order not fulfilled after 30 minutes", w2)
          ∧ w2.slept = w.slept + 30 ∧ w2.fs = w.fs)
    ∧ (∀ k, k ≤ numRetries →
        pollAnswer lib p.manager X (p.manager.placeOrder lib names p.opts w).2 k = true →
        (∀ j, j < k →
          pollAnswer lib p.manager X (p.manager.placeOrder lib names p.opts w).2 j = false) →
        ∃ w2, pollLoop lib p.manager X fuel 0 (p.manager.placeOrder lib names p.opts w).2
            = some (PollExit.fulfilledAt k, w2)
          ∧ w2.slept = w.slept + k ∧ w2.fs = w.fs
          ∧ p.Create lib names fuel w = some (p.manager.addOrderInfo lib X names w2))
    ∧ (∀ t w2, pollLoop lib p.manager X fuel 0 (p.manager.placeOrder lib names p.opts w).2
            = some (PollExit.timedOut t, w2) →
        t = numRetries ∧ ∀ k, k ≤ numRetries →
          pollAnswer lib p.manager X (p.manager.placeOrder lib names p.opts w).2 k = false)
    ∧ (∀ r w2, p.Create lib names fuel w = some (r, w2) → w2.slept ≤ w.slept + 30) := by
  have hw1 := placeOrder_stable lib p.manager names p.opts w
  have hcreate := Create_of_placed lib p names fuel w X hplace
  -- the world after the last poll, when no poll is answered true
  have htimeout : (∀ k, k ≤ numRetries →
        pollAnswer lib p.manager X (p.manager.placeOrder lib names p.opts w).2 k = false) →
      pollLoop lib p.manager X fuel 0 (p.manager.placeOrder lib names p.opts w).2 =
        some (PollExit.timedOut numRetries, (p.manager.fulfilled lib X
          (pollWorld lib p.manager X (p.manager.placeOrder lib names p.opts w).2 numRetries)).2) :=
    fun hno => pollLoop_timeout lib p.manager X _ fuel 0 (Nat.zero_le _) (by omega)
      (fun k _ hk => hno k hk)
  have hfulfilled : ∀ k, k ≤ numRetries →
      pollAnswer lib p.manager X (p.manager.placeOrder lib names p.opts w).2 k = true →
      (∀ j, j < k →
        pollAnswer lib p.manager X (p.manager.placeOrder lib names p.opts w).2 j = false) →
      pollLoop lib p.manager X fuel 0 (p.manager.placeOrder lib names p.opts w).2 =
        some (PollExit.fulfilledAt k, (p.manager.fulfilled lib X
          (pollWorld lib p.manager X (p.manager.placeOrder lib names p.opts w).2 k)).2) :=
    fun k hk hyes hno => pollLoop_fulfilled lib p.manager X _ fuel 0 k (Nat.zero_le _) hk
      (by unfold numRetries at hk hfuel; omega) (fun j _ hj => hno j hj) hyes
  have hstab : ∀ k, (p.manager.fulfilled lib X
        (pollWorld lib p.manager X (p.manager.placeOrder lib names p.opts w).2 k)).2.slept
          = w.slept + k ∧
      (p.manager.fulfilled lib X
        (pollWorld lib p.manager X (p.manager.placeOrder lib names p.opts w).2 k)).2.fs = w.fs := by
    intro k
    have h1 := fulfilled_stable lib p.manager X
      (pollWorld lib p.manager X (p.manager.placeOrder lib names p.opts w).2 k)
    have h2 := pollWorld_stable lib p.manager X (p.manager.placeOrder lib names p.opts w).2 k
    exact ⟨by rw [h1.2.2, h2.1, hw1.2.2], by rw [h1.1, h2.2.1, hw1.1]⟩
  refine ⟨?_, ?_, ?_, ?_, ?_⟩
  · rw [hcreate]
    have hsome := pollLoop_isSome lib p.manager X fuel 0
      (p.manager.placeOrder lib names p.opts w).2 (by omega) (by omega)
    cases hl : pollLoop lib p.manager X fuel 0 (p.manager.placeOrder lib names p.opts w).2 with
    | none => simp [hl] at hsome
    | some r =>
      obtain ⟨e, w2⟩ := r
      cases e <;> rfl
  · intro hno
    refine ⟨_, ?_, (hstab numRetries).1, (hstab numRetries).2⟩
    rw [hcreate, htimeout hno]
    rfl
  · intro k hk hyes hno
    refine ⟨_, hfulfilled k hk hyes hno, (hstab k).1, (hstab k).2, ?_⟩
    rw [hcreate, hfulfilled k hk hyes hno]
  · intro t w2 hl
    rcases poll_cases lib p.manager X (p.manager.placeOrder lib names p.opts w).2 with hno | hyes
    · rw [htimeout hno] at hl
      injection hl with hl
      injection hl with h1 h2
      injection h1 with h1
      exact ⟨h1.symm, hno⟩
    · obtain ⟨k, hk, hy, hn⟩ := hyes
      rw [hfulfilled k hk hy hn] at hl
      injection hl with hl
      injection hl with h1 h2
      cases h1
  · intro r w2 hc
    rw [hcreate] at hc
    rcases poll_cases lib p.manager X (p.manager.placeOrder lib names p.opts w).2 with hno | hyes
    · rw [htimeout hno] at hc
      simp only [Option.some.injEq, Prod.mk.injEq] at hc
      rw [← hc.2, (hstab numRetries).1]
      exact Nat.le_refl _
    · obtain ⟨k, hk, hy, hn⟩ := hyes
      rw [hfulfilled k hk hy hn] at hc
      simp only [Option.some.injEq] at hc
      have h3 := addOrderInfo_slept lib p.manager X names (p.manager.fulfilled lib X
        (pollWorld lib p.manager X (p.manager.placeOrder lib names p.opts w).2 k)).2
      rw [hc] at h3
      simp only at h3
      rw [h3, (hstab k).1]
      unfold numRetries at hk
      omega

/-- Witness for C10: the order is placed and the fuel exceeds the budget. -/
theorem Create_polling_witness :
    (sampleProvider.manager.placeOrder sampleLib ["vm1"] sampleProvider.opts promptWorld).1
      = Outcome.ok "X" ∧
    numRetries + 1 ≤ 31 ∧
    (sampleProvider.Create sampleLib ["vm1"] 31 promptWorld).isSome = true :=
  ⟨rfl, by decide,
    (Create_polling sampleLib sampleProvider ["vm1"] 31 promptWorld "X" rfl (by decide)).1⟩

/-! ## Writing the registry -/

theorem pollLoop_first (lib : Lib) (m : bodegaManager) (orderID : String) (fuel : Nat)
    (w : World) (hfuel : 0 < fuel) (hpoll : (m.fulfilled lib orderID w).1 = true) :
    pollLoop lib m orderID fuel 0 w =
      some (PollExit.fulfilledAt 0, (m.fulfilled lib orderID w).2) := by
  cases fuel with
  | zero => omega
  | succ fuel =>
    unfold pollLoop
    simp [hpoll]

theorem saveOrderInfo_of_marshal (lib : Lib) (m : bodegaManager) (M : OrderMap) (w : World)
    (json : String) (hmar : lib.marshalIndent M = Except.ok json) (hwf : w.writeFault = none) :
    (m.saveOrderInfo lib M w).1 = Except.ok () ∧
      (m.saveOrderInfo lib M w).2.fs =
        (fun q => if q = m.bodegaOrderPath then FileState.content json else w.fs q) := by
  unfold bodegaManager.saveOrderInfo writeFile
  rw [hmar, hwf]
  exact ⟨rfl, rfl⟩

theorem addOrderInfo_of_read (lib : Lib) (m : bodegaManager) (X : String) (names : List String)
    (w : World) (es : Entries) (json : String)
    (hread : (m.orderToMachineMap lib w).1 = Outcome.ok (OrderMap.mk es))
    (hmar : lib.marshalIndent (OrderMap.mk (setEntry X names es)) = Except.ok json)
    (hwf : w.writeFault = none) :
    (m.addOrderInfo lib X names w).1 = Outcome.ok () ∧
      (m.addOrderInfo lib X names w).2.fs =
        (fun q => if q = m.bodegaOrderPath then FileState.content json else w.fs q) := by
  have hs := orderToMachineMap_stable lib m w
  have hsave := saveOrderInfo_of_marshal lib m (OrderMap.mk (setEntry X names es))
    (m.orderToMachineMap lib w).2 json hmar (hs.2.1.trans hwf)
  unfold bodegaManager.addOrderInfo
  simp only [hread, hsave.1]
  refine ⟨trivial, ?_⟩
  rw [hsave.2, hs.1]

/-- The registry after `addOrderInfo`: the live part of the registry read, with the
new order added or overwritten. -/
theorem lookup_registered (X : String) (names : List String) (L : List String)
    (decoded : Option Entries) (id : String) :
    (OrderMap.mk (setEntry X names (liveFilter L (decodedMap decoded).entries))).get? id =
      if id = X then some names
      else if id ∈ L then (decodedMap decoded).get? id else none := by
  show (setEntry X names (liveFilter L (decodedMap decoded).entries)).lookup id = _
  rw [lookup_setEntry, lookup_liveFilter L _ id (decodedMap_nodup decoded)]
  rfl

/-- Over a registry file that exists and decodes to the map `R`, if
`placeOrder` returns `X`, the first poll is true, the live listing gives `L` and
encoding and writing the file succeed, then `Create` returns no error and the file
holds the encoding of the map that sends `X` to the given names and every other
identifier to what `R` stores for it when it occurs in `L`; other files are
unchanged. -/
theorem Create_registers (lib : Lib) (p : Provider) (names : List String) (fuel : Nat)
    (w : World) (X : String) (L : List String) (data : String) (decoded : Option Entries)
    (hfuel : 0 < fuel)
    (hplace : (p.manager.placeOrder lib names p.opts w).1 = Outcome.ok X)
    (hpoll : (p.manager.fulfilled lib X (p.manager.placeOrder lib names p.opts w).2).1 = true)
    (hlive : (p.manager.liveOrderIDs lib
      (p.manager.fulfilled lib X (p.manager.placeOrder lib names p.opts w).2).2).1 = Outcome.ok L)
    (hfile : w.fs p.manager.bodegaOrderPath = FileState.content data)
    (hdec : lib.decodeOrders data = Except.ok decoded)
    (hmar : ∀ M : OrderMap, ∃ json, lib.marshalIndent M = Except.ok json)
    (hwf : w.writeFault = none) :
    ∃ (w2 : World) (M : OrderMap) (json : String),
      p.Create lib names fuel w = some (Outcome.ok (), w2) ∧
      lib.marshalIndent M = Except.ok json ∧
      w2.fs p.manager.bodegaOrderPath = FileState.content json ∧
      (∀ q, q ≠ p.manager.bodegaOrderPath → w2.fs q = w.fs q) ∧
      (M.entries.map Prod.fst).Nodup ∧
      ∀ id, M.get? id =
        if id = X then some names
        else if id ∈ L then (decodedMap decoded).get? id else none := by
  have hs1 := placeOrder_stable lib p.manager names p.opts w
  have hs2 := fulfilled_stable lib p.manager X (p.manager.placeOrder lib names p.opts w).2
  have hs := hs1.trans_ hs2
  have hread := orderToMachineMap_of_live lib p.manager _ L hlive
  rw [hs.1, hfile] at hread
  simp only [hdec] at hread
  obtain ⟨json, hjson⟩ := hmar (OrderMap.mk (setEntry X names
    (liveFilter L (decodedMap decoded).entries)))
  have hadd := addOrderInfo_of_read lib p.manager X names _ _ json hread hjson (hs.2.1.trans hwf)
  refine ⟨(p.manager.addOrderInfo lib X names
      (p.manager.fulfilled lib X (p.manager.placeOrder lib names p.opts w).2).2).2,
    OrderMap.mk (setEntry X names (liveFilter L (decodedMap decoded).entries)), json,
    ?_, hjson, ?_, ?_, ?_, ?_⟩
  · rw [Create_of_placed lib p names fuel w X hplace,
      pollLoop_first lib p.manager X fuel _ hfuel hpoll]
    show some (p.manager.addOrderInfo lib X names _) = some (Outcome.ok (), _)
    rw [← hadd.1]
  · rw [hadd.2]
    simp
  · intro q hq
    rw [hadd.2]
    simp only [hq, if_false]
    rw [hs.1]
  · exact setEntry_nodup _ _ _ (liveFilter_nodup L _ [] List.nodup_nil)
  · intro id
    exact lookup_registered X names L decoded id

/-- An instance of `Create_registers`: the registry holds order Y, which is no longer live. -/
theorem Create_registers_witness :
    (sampleProvider.manager.placeOrder sampleLib ["vm1"] sampleProvider.opts promptWorld).1
      = Outcome.ok "X" ∧
    promptWorld.fs sampleProvider.manager.bodegaOrderPath = FileState.content "Y=d" ∧
    ∃ (w2 : World) (M : OrderMap) (json : String),
      sampleProvider.Create sampleLib ["vm1"] 1 promptWorld = some (Outcome.ok (), w2) ∧
      sampleLib.marshalIndent M = Except.ok json ∧
      w2.fs sampleProvider.manager.bodegaOrderPath = FileState.content json ∧
      (∀ q, q ≠ sampleProvider.manager.bodegaOrderPath → w2.fs q = promptWorld.fs q) ∧
      (M.entries.map Prod.fst).Nodup ∧
      ∀ id, M.get? id =
        if id = "X" then some ["vm1"]
        else if id ∈ ([] : List String) then (decodedMap (some [("Y", ["d"])])).get? id
        else none :=
  ⟨rfl, rfl, Create_registers sampleLib sampleProvider ["vm1"] 1 promptWorld "X" []
    "Y=d" (some [("Y", ["d"])]) (by decide) rfl rfl rfl rfl rfl
    (fun M => by
      cases M with
      | nilMap => exact ⟨_, rfl⟩
      | mk es =>
        simp only [sampleLib]
        split_ifs <;> exact ⟨_, rfl⟩)
    rfl⟩

/-- The order is placed, the first poll is true and the live listing succeeds; over
a registry file that does not decode `Create` returns the error of the read and
leaves the file as it was. -/
theorem Create_corrupt_registry :
    (sampleProvider.manager.placeOrder sampleLib ["vm1"] sampleProvider.opts corruptWorld).1
      = Outcome.ok "X" ∧
    (sampleProvider.manager.fulfilled sampleLib "X"
      (sampleProvider.manager.placeOrder sampleLib ["vm1"] sampleProvider.opts corruptWorld).2).1
      = true ∧
    (sampleProvider.manager.liveOrderIDs sampleLib
      (sampleProvider.manager.fulfilled sampleLib "X"
        (sampleProvider.manager.placeOrder sampleLib ["vm1"] sampleProvider.opts
          corruptWorld).2).2).1 = Outcome.ok [] ∧
    ∃ w2, sampleProvider.Create sampleLib ["vm1"] 31 corruptWorld =
        some (Outcome.error ("unable to get order to machine map: unable to decode file "
          ++ "/home/u/.roachprod/bodega_orders: invalid character"), w2) ∧
      w2.fs sampleProvider.manager.bodegaOrderPath = FileState.content "garbage" :=
  ⟨rfl, rfl, rfl, _, rfl, rfl⟩

/-- Over a registry file that does not exist, a `Create` whose order is placed,
whose first poll is true and whose live listing succeeds ends in the runtime panic
of an assignment into a nil map, and writes nothing. -/
theorem Create_absent_registry_panics (lib : Lib) (p : Provider) (names : List String)
    (fuel : Nat) (w : World) (X : String) (L : List String)
    (hfuel : 0 < fuel)
    (hplace : (p.manager.placeOrder lib names p.opts w).1 = Outcome.ok X)
    (hpoll : (p.manager.fulfilled lib X (p.manager.placeOrder lib names p.opts w).2).1 = true)
    (hlive : (p.manager.liveOrderIDs lib
      (p.manager.fulfilled lib X (p.manager.placeOrder lib names p.opts w).2).2).1 = Outcome.ok L)
    (hfile : w.fs p.manager.bodegaOrderPath = FileState.absent) :
    ∃ w2, p.Create lib names fuel w
        = some (Outcome.panic "assignment to entry in nil map", w2) ∧ w2.fs = w.fs := by
  have hs1 := placeOrder_stable lib p.manager names p.opts w
  have hs2 := fulfilled_stable lib p.manager X (p.manager.placeOrder lib names p.opts w).2
  have hs := hs1.trans_ hs2
  have hread := orderToMachineMap_of_live lib p.manager _ L hlive
  rw [hs.1, hfile] at hread
  simp only at hread
  have hs3 := orderToMachineMap_stable lib p.manager
    (p.manager.fulfilled lib X (p.manager.placeOrder lib names p.opts w).2).2
  refine ⟨(p.manager.orderToMachineMap lib
    (p.manager.fulfilled lib X (p.manager.placeOrder lib names p.opts w).2).2).2, ?_, ?_⟩
  · rw [Create_of_placed lib p names fuel w X hplace,
      pollLoop_first lib p.manager X fuel _ hfuel hpoll]
    show some (p.manager.addOrderInfo lib X names _) = _
    unfold bodegaManager.addOrderInfo
    simp only [hread]
  · rw [hs3.1, hs.1]

/-- C1: the scenario of the specification run on the code.  There is no registry
file, `placeOrder` returns the sid X, the first poll finds the order fulfilled and the
live listing succeeds; `Create ["vm1"]` does not return: `orderToMachineMap` hands
the nil map to `addOrderInfo`, whose assignment into it panics, and the registry
file is still absent afterwards instead of holding X with vm1. -/
theorem Create_first_use_panics :
    freshWorld.fs sampleProvider.manager.bodegaOrderPath = FileState.absent ∧
    (sampleProvider.manager.placeOrder sampleLib ["vm1"] sampleProvider.opts freshWorld).1
      = Outcome.ok "X" ∧
    (sampleProvider.manager.fulfilled sampleLib "X"
      (sampleProvider.manager.placeOrder sampleLib ["vm1"] sampleProvider.opts freshWorld).2).1
      = true ∧
    (sampleProvider.manager.liveOrderIDs sampleLib
      (sampleProvider.manager.fulfilled sampleLib "X"
        (sampleProvider.manager.placeOrder sampleLib ["vm1"] sampleProvider.opts
          freshWorld).2).2).1 = Outcome.ok [] ∧
    (sampleProvider.manager.orderToMachineMap sampleLib
      (sampleProvider.manager.fulfilled sampleLib "X"
        (sampleProvider.manager.placeOrder sampleLib ["vm1"] sampleProvider.opts
          freshWorld).2).2).1 = Outcome.ok OrderMap.nilMap ∧
    ∃ w2, sampleProvider.Create sampleLib ["vm1"] 31 freshWorld
        = some (Outcome.panic "assignment to entry in nil map", w2) ∧
      w2.fs sampleProvider.manager.bodegaOrderPath = FileState.absent :=
  ⟨rfl, rfl, rfl, rfl, rfl, _, rfl, rfl⟩

/-! ## Round trip through the registry file -/

theorem saveOrderInfo_ok_inv (lib : Lib) (m : bodegaManager) (M : OrderMap) (w : World)
    (hsave : (m.saveOrderInfo lib M w).1 = Except.ok ()) :
    ∃ json, lib.marshalIndent M = Except.ok json ∧
      (m.saveOrderInfo lib M w).2.fs =
        (fun q => if q = m.bodegaOrderPath then FileState.content json else w.fs q) := by
  unfold bodegaManager.saveOrderInfo at hsave ⊢
  cases hm : lib.marshalIndent M with
  | error e => simp [hm] at hsave
  | ok json =>
    simp only [hm] at hsave ⊢
    refine ⟨json, rfl, ?_⟩
    unfold writeFile at hsave ⊢
    cases hw : w.writeFault with
    | some f =>
      simp [hw] at hsave
    | none => rfl

/-- C4: if `saveOrderInfo M` succeeds and the live listing that follows reports
every key of `M`, then `orderToMachineMap` returns a map with the keys of `M`, each
with the machine names `M` stores, in their order.  The JSON library is taken to
decode what it encoded for `M` back to the entries of `M`. -/
theorem save_then_read (lib : Lib) (m : bodegaManager) (M : OrderMap) (w : World)
    (L : List String)
    (hsave : (m.saveOrderInfo lib M w).1 = Except.ok ())
    (hcodec : ∀ json, lib.marshalIndent M = Except.ok json →
      ∃ decoded, lib.decodeOrders json = Except.ok decoded ∧
        ∀ id, (decodedMap decoded).get? id = M.get? id)
    (hlive : (m.liveOrderIDs lib (m.saveOrderInfo lib M w).2).1 = Outcome.ok L)
    (hall : ∀ id, id ∈ M.entries.map Prod.fst → id ∈ L) :
    ∃ M2 : OrderMap, (m.orderToMachineMap lib (m.saveOrderInfo lib M w).2).1 = Outcome.ok M2 ∧
      (M2.entries.map Prod.fst).Nodup ∧ ∀ id, M2.get? id = M.get? id := by
  obtain ⟨json, hjson, hfs⟩ := saveOrderInfo_ok_inv lib m M w hsave
  obtain ⟨decoded, hdec, hsame⟩ := hcodec json hjson
  have hfile : (m.saveOrderInfo lib M w).2.fs m.bodegaOrderPath = FileState.content json := by
    rw [hfs]
    simp
  obtain ⟨hM2, hnd, hget⟩ := read_registry lib m _ L json decoded hlive hfile hdec
  refine ⟨_, hM2, hnd, ?_⟩
  intro id
  show (liveFilter L (decodedMap decoded).entries).lookup id = _
  rw [hget id, hsame id]
  by_cases hid : id ∈ L
  · simp [hid]
  · have hnot : id ∉ M.entries.map Prod.fst := fun h => hid (hall id h)
    simp only [hid, if_false]
    exact (lookup_eq_none_of_not_mem M.entries id hnot).symm

/-- Witness for C4: the one-entry registry of order X, read while X is live. -/
theorem save_then_read_witness :
    (sampleManager.saveOrderInfo sampleLib (OrderMap.mk [("X", ["vm1"])])
        (sampleWorld ["profile", "live:X"] FileState.absent)).1 = Except.ok () ∧
    ∃ M2 : OrderMap,
      (sampleManager.orderToMachineMap sampleLib
        (sampleManager.saveOrderInfo sampleLib (OrderMap.mk [("X", ["vm1"])])
          (sampleWorld ["profile", "live:X"] FileState.absent)).2).1 = Outcome.ok M2 ∧
      (M2.entries.map Prod.fst).Nodup ∧
      ∀ id, M2.get? id = (OrderMap.mk [("X", ["vm1"])]).get? id :=
  ⟨rfl, save_then_read sampleLib sampleManager (OrderMap.mk [("X", ["vm1"])])
    (sampleWorld ["profile", "live:X"] FileState.absent) ["X"] rfl
    (fun json hj => by
      have hx : json = "X=vm1" := by
        have h2 : sampleLib.marshalIndent (OrderMap.mk [("X", ["vm1"])]) = Except.ok "X=vm1" := rfl
        rw [h2] at hj
        injection hj with hj
        exact hj.symm
      subst hx
      exact ⟨some [("X", ["vm1"])], rfl, fun _ => rfl⟩)
    rfl (fun _ h => h)⟩

/-! ## Reading the registry after Create -/

theorem pollLoop_stable (lib : Lib) (m : bodegaManager) (orderID : String) (fuel t : Nat)
    (w : World) (e : PollExit) (w2 : World)
    (h : pollLoop lib m orderID fuel t w = some (e, w2)) :
    w2.fs = w.fs ∧ w2.writeFault = w.writeFault := by
  induction fuel generalizing t w with
  | zero => simp [pollLoop] at h
  | succ fuel ih =>
    have hs := fulfilled_stable lib m orderID w
    unfold pollLoop at h
    dsimp only at h
    by_cases h1 : (m.fulfilled lib orderID w).1 = true
    · rw [if_pos h1] at h
      simp only [Option.some.injEq, Prod.mk.injEq] at h
      rw [← h.2]
      exact ⟨hs.1, hs.2.1⟩
    · rw [if_neg h1] at h
      by_cases h2 : t ≥ numRetries
      · rw [if_pos h2] at h
        simp only [Option.some.injEq, Prod.mk.injEq] at h
        rw [← h.2]
        exact ⟨hs.1, hs.2.1⟩
      · rw [if_neg h2] at h
        have := ih (t + 1) _ h
        exact ⟨this.1.trans hs.1, this.2.trans hs.2.1⟩

theorem Create_ok_inv (lib : Lib) (p : Provider) (names : List String) (fuel : Nat)
    (w w2 : World) (X : String)
    (hplace : (p.manager.placeOrder lib names p.opts w).1 = Outcome.ok X)
    (hcreate : p.Create lib names fuel w = some (Outcome.ok (), w2)) :
    ∃ t w1, pollLoop lib p.manager X fuel 0 (p.manager.placeOrder lib names p.opts w).2
        = some (PollExit.fulfilledAt t, w1) ∧
      w1.fs = w.fs ∧ p.manager.addOrderInfo lib X names w1 = (Outcome.ok (), w2) := by
  rw [Create_of_placed lib p names fuel w X hplace] at hcreate
  have hs1 := placeOrder_stable lib p.manager names p.opts w
  cases hl : pollLoop lib p.manager X fuel 0 (p.manager.placeOrder lib names p.opts w).2 with
  | none => simp [hl] at hcreate
  | some r =>
    obtain ⟨e, w1⟩ := r
    have hs2 := pollLoop_stable lib p.manager X fuel 0 _ e w1 hl
    cases e with
    | timedOut t => simp [hl] at hcreate
    | fulfilledAt t =>
      simp only [hl, Option.some.injEq] at hcreate
      exact ⟨t, w1, rfl, hs2.1.trans hs1.1, hcreate⟩

theorem orderToMachineMap_ok_inv (lib : Lib) (m : bodegaManager) (w : World) (es : Entries)
    (h : (m.orderToMachineMap lib w).1 = Outcome.ok (OrderMap.mk es)) :
    ∃ L data decoded, (m.liveOrderIDs lib w).1 = Outcome.ok L ∧
      w.fs m.bodegaOrderPath = FileState.content data ∧
      lib.decodeOrders data = Except.ok decoded ∧
      es = liveFilter L (decodedMap decoded).entries := by
  cases hL : (m.liveOrderIDs lib w).1 with
  | error e =>
    unfold bodegaManager.orderToMachineMap at h
    simp [hL] at h
  | panic q =>
    unfold bodegaManager.orderToMachineMap at h
    simp [hL] at h
  | ok L =>
    rw [orderToMachineMap_of_live lib m w L hL] at h
    cases hf : w.fs m.bodegaOrderPath with
    | absent => simp [hf] at h
    | unreadable e => simp [hf] at h
    | content data =>
      simp only [hf] at h
      cases hd : lib.decodeOrders data with
      | error e => simp [hd] at h
      | ok decoded =>
        simp only [hd, Outcome.ok.injEq, OrderMap.mk.injEq] at h
        exact ⟨L, data, decoded, rfl, rfl, hd, h.symm⟩

theorem addOrderInfo_ok_inv (lib : Lib) (m : bodegaManager) (X : String) (names : List String)
    (w w2 : World) (h : m.addOrderInfo lib X names w = (Outcome.ok (), w2)) :
    ∃ L data decoded json, (m.liveOrderIDs lib w).1 = Outcome.ok L ∧
      w.fs m.bodegaOrderPath = FileState.content data ∧
      lib.decodeOrders data = Except.ok decoded ∧
      lib.marshalIndent (OrderMap.mk (setEntry X names (liveFilter L (decodedMap decoded).entries)))
        = Except.ok json ∧
      w2.fs m.bodegaOrderPath = FileState.content json := by
  have hs := orderToMachineMap_stable lib m w
  unfold bodegaManager.addOrderInfo at h
  dsimp only at h
  cases hr : (m.orderToMachineMap lib w).1 with
  | error e => simp [hr] at h
  | panic q => simp [hr] at h
  | ok om =>
    cases om with
    | nilMap => simp [hr] at h
    | mk es =>
      obtain ⟨L, data, decoded, hL, hf, hd, hes⟩ := orderToMachineMap_ok_inv lib m w es hr
      simp only [hr] at h
      cases hsv : (m.saveOrderInfo lib (OrderMap.mk (setEntry X names es))
          (m.orderToMachineMap lib w).2).1 with
      | error e => simp [hsv] at h
      | ok u =>
        obtain ⟨json, hjson, hfs⟩ := saveOrderInfo_ok_inv lib m _ _ hsv
        simp only [hsv, Prod.mk.injEq, true_and] at h
        refine ⟨L, data, decoded, json, hL, hf, hd, ?_, ?_⟩
        · rw [← hes]
          exact hjson
        · rw [← h, hfs]
          simp

/-- C5 fails as stated: the registry holds the live order Y when `Create` runs for
the machines a, b, c; `Create` succeeds with order X and the read that follows
returns two entries, Y next to X. -/
theorem Create_keeps_other_live_orders :
    (sampleProvider.manager.placeOrder sampleLib ["a", "b", "c"] sampleProvider.opts
      sharedWorld).1 = Outcome.ok "X" ∧
    ∃ w2, sampleProvider.Create sampleLib ["a", "b", "c"] 31 sharedWorld
        = some (Outcome.ok (), w2) ∧
      (sampleManager.orderToMachineMap sampleLib w2).1 =
        Outcome.ok (OrderMap.mk [("Y", ["d"]), ("X", ["a", "b", "c"])]) :=
  ⟨rfl, _, rfl, rfl⟩

/-- C5 as amended: after a `Create` of the given machines that succeeds with order
`X`, a read of the registry whose live listing succeeds and reports `X` returns a
map that sends `X` to the names given to `Create`, in their order; any other key it
holds is an order that the registry file held before `Create`, with the names stored
there, and that is reported both by this live listing and by the one `Create` made,
which is the listing in the world `w1` in which the polling loop ended.  The JSON
library is taken to decode the registry file it wrote back to the entries it
encoded. -/
theorem Create_then_read (lib : Lib) (p : Provider) (names : List String) (fuel : Nat)
    (w w2 : World) (X : String) (L2 : List String)
    (hplace : (p.manager.placeOrder lib names p.opts w).1 = Outcome.ok X)
    (hcreate : p.Create lib names fuel w = some (Outcome.ok (), w2))
    (hcodec : ∀ (M : OrderMap) (json : String), lib.marshalIndent M = Except.ok json →
      w2.fs p.manager.bodegaOrderPath = FileState.content json →
      ∃ decoded, lib.decodeOrders json = Except.ok decoded ∧
        ∀ id, (decodedMap decoded).get? id = M.get? id)
    (hlive : (p.manager.liveOrderIDs lib w2).1 = Outcome.ok L2)
    (hX : X ∈ L2) :
    ∃ (M2 : OrderMap) (t : Nat) (w1 : World) (L1 : List String) (data : String)
        (before : Option Entries),
      pollLoop lib p.manager X fuel 0 (p.manager.placeOrder lib names p.opts w).2
        = some (PollExit.fulfilledAt t, w1) ∧
      (p.manager.liveOrderIDs lib w1).1 = Outcome.ok L1 ∧
      p.manager.addOrderInfo lib X names w1 = (Outcome.ok (), w2) ∧
      w.fs p.manager.bodegaOrderPath = FileState.content data ∧
      lib.decodeOrders data = Except.ok before ∧
      (p.manager.orderToMachineMap lib w2).1 = Outcome.ok M2 ∧
      (M2.entries.map Prod.fst).Nodup ∧
      M2.get? X = some names ∧
      ∀ id, id ≠ X →
        M2.get? id = if id ∈ L2 ∧ id ∈ L1 then (decodedMap before).get? id else none := by
  obtain ⟨t, w1, hloop, hw1, hadd⟩ := Create_ok_inv lib p names fuel w w2 X hplace hcreate
  obtain ⟨L1, data, before, json, hL1, hf, hd, hjson, hfile2⟩ :=
    addOrderInfo_ok_inv lib p.manager X names w1 w2 hadd
  obtain ⟨decoded, hdec, hsame⟩ := hcodec _ json hjson hfile2
  obtain ⟨hM2, hnd, hget⟩ := read_registry lib p.manager w2 L2 json decoded hlive hfile2 hdec
  rw [hw1] at hf
  refine ⟨_, t, w1, L1, data, before, hloop, hL1, hadd, hf, hd, hM2, hnd, ?_, ?_⟩
  · show (liveFilter L2 (decodedMap decoded).entries).lookup X = _
    rw [hget X, hsame X, lookup_registered]
    simp [hX]
  · intro id hid
    show (liveFilter L2 (decodedMap decoded).entries).lookup id = _
    rw [hget id, hsame id, lookup_registered]
    by_cases h2 : id ∈ L2
    · by_cases h1 : id ∈ L1
      · simp [hid, h1, h2]
      · simp [hid, h1, h2]
    · simp [h2]

/-- Witness for C5 as amended: order Y is registered and live next to the new X. -/
theorem Create_then_read_witness :
    (sampleProvider.manager.placeOrder sampleLib ["a", "b", "c"] sampleProvider.opts
      sharedWorld).1 = Outcome.ok "X" ∧
    sampleProvider.Create sampleLib ["a", "b", "c"] 31 sharedWorld
      = some (Outcome.ok (), sharedWorldAfter) ∧
    (sampleProvider.manager.liveOrderIDs sampleLib sharedWorldAfter).1 = Outcome.ok ["X", "Y"] ∧
    ∃ (M2 : OrderMap) (t : Nat) (w1 : World) (L1 : List String) (data : String)
        (before : Option Entries),
      pollLoop sampleLib sampleProvider.manager "X" 31 0
          (sampleProvider.manager.placeOrder sampleLib ["a", "b", "c"] sampleProvider.opts
            sharedWorld).2
        = some (PollExit.fulfilledAt t, w1) ∧
      (sampleProvider.manager.liveOrderIDs sampleLib w1).1 = Outcome.ok L1 ∧
      sampleProvider.manager.addOrderInfo sampleLib "X" ["a", "b", "c"] w1
        = (Outcome.ok (), sharedWorldAfter) ∧
      sharedWorld.fs sampleProvider.manager.bodegaOrderPath = FileState.content data ∧
      sampleLib.decodeOrders data = Except.ok before ∧
      (sampleProvider.manager.orderToMachineMap sampleLib sharedWorldAfter).1 = Outcome.ok M2 ∧
      (M2.entries.map Prod.fst).Nodup ∧
      M2.get? "X" = some ["a", "b", "c"] ∧
      ∀ id, id ≠ "X" →
        M2.get? id =
          if id ∈ ["X", "Y"] ∧ id ∈ L1 then (decodedMap before).get? id else none :=
  ⟨rfl, rfl, rfl, Create_then_read sampleLib sampleProvider ["a", "b", "c"] 31 sharedWorld
    sharedWorldAfter "X" ["X", "Y"] rfl rfl
    (fun M json hm hf => by
      have hfile : sharedWorldAfter.fs sampleProvider.manager.bodegaOrderPath
          = FileState.content "Y=d;X=a,b,c" := rfl
      rw [hfile] at hf
      injection hf with hf
      subst hf
      refine ⟨some [("Y", ["d"]), ("X", ["a", "b", "c"])], rfl, ?_⟩
      cases M with
      | nilMap =>
        have h0 : sampleLib.marshalIndent OrderMap.nilMap = Except.ok "null" := rfl
        rw [h0] at hm
        injection hm with hm
        exact absurd hm (by decide)
      | mk es =>
        have hes : es = [("Y", ["d"]), ("X", ["a", "b", "c"])] := by
          simp only [sampleLib] at hm
          split_ifs at hm with h1 h2 h3 h4
          · injection hm with hm
            exact absurd hm (by decide)
          · injection hm with hm
            exact absurd hm (by decide)
          · exact h3
          · injection hm with hm
            exact absurd hm (by decide)
          · injection hm with hm
            exact absurd hm (by decide)
        subst hes
        intro id
        rfl)
    rfl (by decide)⟩

/-! ## Finding the order of a machine -/

theorem findOrder_some (name : String) (es : Entries) (orderID : String)
    (h : findOrder name es = some orderID) :
    ∃ machines, (orderID, machines) ∈ es ∧ name ∈ machines := by
  induction es with
  | nil => simp [findOrder] at h
  | cons e rest ih =>
    obtain ⟨k, ms⟩ := e
    unfold findOrder at h
    by_cases hin : inSlice name ms = true
    · simp only [hin, if_true, Option.some.injEq] at h
      subst h
      exact ⟨ms, List.mem_cons_self _ _, (inSlice_iff name ms).1 hin⟩
    · simp only [hin, if_false] at h
      obtain ⟨machines, hm, hn⟩ := ih h
      exact ⟨machines, List.mem_cons_of_mem _ hm, hn⟩

theorem findOrder_none (name : String) (es : Entries)
    (h : ∀ e ∈ es, name ∉ e.2) : findOrder name es = none := by
  induction es with
  | nil => rfl
  | cons e rest ih =>
    obtain ⟨k, ms⟩ := e
    unfold findOrder
    have hin : ¬ inSlice name ms = true :=
      fun hh => h (k, ms) (List.mem_cons_self _ _) ((inSlice_iff name ms).1 hh)
    simp only [hin, if_false]
    exact ih (fun e he => h e (List.mem_cons_of_mem _ he))

theorem joinNames_cons (a : String) (rest : List String) :
    ∃ tail : String, joinNames (a :: rest) = a ++ tail := by
  cases rest with
  | nil => exact ⟨"", by simp [joinNames]⟩
  | cons b rest => exact ⟨" " ++ joinNames (b :: rest), by simp [joinNames, String.append_assoc]⟩

theorem notFound_mentions (vm0 : VM) (rest : List VM) :
    mentions ("unable to find orderID for machines: " ++ fmtVStrings (vmNames (vm0 :: rest)))
      vm0.Name := by
  obtain ⟨tail, ht⟩ := joinNames_cons vm0.Name (vmNames rest)
  unfold mentions fmtVStrings
  have hv : vmNames (vm0 :: rest) = vm0.Name :: vmNames rest := rfl
  rw [hv, ht]
  simp only [String.data_append]
  exact ⟨"unable to find orderID for machines: ".data ++ "[".data, tail.data ++ "]".data,
    by simp [List.append_assoc]⟩

set_option maxRecDepth 100000 in
/-- C8 fails as stated: the first machine, vm1, is in no registry entry, and with
the service unreachable the error of `orderIDOfVMs` is the wrapped failure of the
registry read, which does not name the machine. -/
theorem orderIDOfVMs_unreachable :
    unreachableWorld.fs sampleManager.bodegaOrderPath = FileState.content "Y=d" ∧
    sampleLib.decodeOrders "Y=d" = Except.ok (some [("Y", ["d"])]) ∧
    (sampleManager.orderIDOfVMs sampleLib [machineNamed "vm1"] unreachableWorld).1 =
      Outcome.error ("unable to get order to machine map: unable to list orders: "
        ++ "unable to get user\x27s sid: unable to make GET request to "
        ++ "https://bodega.rubrik-lab.com/api/profile/: connection refused") ∧
    ¬ mentions ("unable to get order to machine map: unable to list orders: "
        ++ "unable to get user\x27s sid: unable to make GET request to "
        ++ "https://bodega.rubrik-lab.com/api/profile/: connection refused") "vm1" :=
  ⟨rfl, rfl, rfl, by decide⟩

/-- C8 as amended: an empty list fails with the error `no machine provided`; for a
non-empty list, when the registry read succeeds and the first machine is in none of
the entries it returns, the call fails with an error that lists the machine names;
when the registry read fails, the call fails with that error wrapped; and an
identifier that is returned is a key of the registry read whose machine list
contains the name of the first machine. -/
theorem orderIDOfVMs_cases (lib : Lib) (m : bodegaManager) (w : World) :
    (m.orderIDOfVMs lib [] w).1 = Outcome.error "no machine provided"
    ∧ (∀ (vm0 : VM) (rest : List VM) (M : OrderMap),
        (m.orderToMachineMap lib w).1 = Outcome.ok M →
        (∀ e ∈ M.entries, vm0.Name ∉ e.2) →
        (m.orderIDOfVMs lib (vm0 :: rest) w).1 =
            Outcome.error ("unable to find orderID for machines: "
              ++ fmtVStrings (vmNames (vm0 :: rest)))
          ∧ mentions ("unable to find orderID for machines: "
              ++ fmtVStrings (vmNames (vm0 :: rest))) vm0.Name)
    ∧ (∀ (vm0 : VM) (rest : List VM) (e : String),
        (m.orderToMachineMap lib w).1 = Outcome.error e →
        (m.orderIDOfVMs lib (vm0 :: rest) w).1 =
          Outcome.error ("unable to get order to machine map: " ++ e))
    ∧ (∀ (vm0 : VM) (rest : List VM) (orderID : String),
        (m.orderIDOfVMs lib (vm0 :: rest) w).1 = Outcome.ok orderID →
        ∃ M machines, (m.orderToMachineMap lib w).1 = Outcome.ok M ∧
          (orderID, machines) ∈ M.entries ∧ vm0.Name ∈ machines) := by
  refine ⟨rfl, ?_, ?_, ?_⟩
  · intro vm0 rest M hM hno
    refine ⟨?_, notFound_mentions vm0 rest⟩
    unfold bodegaManager.orderIDOfVMs
    simp only [hM, findOrder_none vm0.Name M.entries hno]
  · intro vm0 rest e he
    unfold bodegaManager.orderIDOfVMs
    simp only [he]
  · intro vm0 rest orderID h
    unfold bodegaManager.orderIDOfVMs at h
    dsimp only at h
    cases hr : (m.orderToMachineMap lib w).1 with
    | error e => simp [hr] at h
    | panic q => simp [hr] at h
    | ok M =>
      simp only [hr] at h
      cases hf : findOrder vm0.Name M.entries with
      | none => simp [hf] at h
      | some found =>
        simp only [hf, Outcome.ok.injEq] at h
        subst h
        obtain ⟨machines, hm, hn⟩ := findOrder_some vm0.Name M.entries found hf
        exact ⟨M, machines, rfl, hm, hn⟩

/-- Witness for C8 as amended: the registry read succeeds with order Y for machine
d, and the machine asked for is vm1. -/
theorem orderIDOfVMs_cases_witness :
    (sampleManager.orderToMachineMap sampleLib
        (sampleWorld ["profile", "live:X,Y"] (FileState.content "Y=d"))).1
      = Outcome.ok (OrderMap.mk [("Y", ["d"])]) ∧
    (sampleManager.orderIDOfVMs sampleLib [machineNamed "vm1", machineNamed "vm2"]
        (sampleWorld ["profile", "live:X,Y"] (FileState.content "Y=d"))).1 =
      Outcome.error ("unable to find orderID for machines: "
        ++ fmtVStrings (vmNames [machineNamed "vm1", machineNamed "vm2"])) ∧
    mentions ("unable to find orderID for machines: "
        ++ fmtVStrings (vmNames [machineNamed "vm1", machineNamed "vm2"]))
      (machineNamed "vm1").Name :=
  ⟨rfl,
    (orderIDOfVMs_cases sampleLib sampleManager
      (sampleWorld ["profile", "live:X,Y"] (FileState.content "Y=d"))).2.1
      (machineNamed "vm1") [machineNamed "vm2"] (OrderMap.mk [("Y", ["d"])]) rfl
      (by decide)⟩

/-! ## Listing the machines -/

theorem stringField_eq (fields : JObj) (k : String) :
    stringField fields k =
      match stringAt fields k with
      | some s => Outcome.ok s
      | none => Outcome.panic assertionPanic := by
  unfold stringField stringAt
  cases List.lookup k fields with
  | none => rfl
  | some v => cases v <;> rfl

theorem machineOf_ok_iff (lib : Lib) (name : String) (spec : JVal) (v : VM) :
    machineOf lib name spec = Outcome.ok v ↔ recordOf lib name spec = some v := by
  cases spec with
  | obj fields =>
    unfold machineOf recordOf
    simp only [stringField_eq]
    cases stringAt fields "time_created" with
    | none => simp
    | some ts =>
      cases hp : lib.parseRFC3339 ts with
      | error e =>
        cases stringAt fields "ipv4" <;> cases stringAt fields "username" <;>
          cases stringAt fields "location" <;> simp [hp]
      | ok created =>
        cases stringAt fields "ipv4" <;> cases stringAt fields "username" <;>
          cases stringAt fields "location" <;> simp [hp, ProviderName]
  | _ => simp [machineOf, recordOf]

theorem machinesOf_ok_iff (lib : Lib) (items : JObj) (acc ms : List VM) :
    machinesOf lib acc items = Outcome.ok ms ↔
      ∃ r, recordsOf lib items = some r ∧ ms = acc ++ r := by
  induction items generalizing acc with
  | nil => simp [machinesOf, recordsOf, eq_comm]
  | cons item rest ih =>
    obtain ⟨name, spec⟩ := item
    unfold machinesOf recordsOf
    cases hm : machineOf lib name spec with
    | error e =>
      have hr : recordOf lib name spec = none := by
        cases hrec : recordOf lib name spec with
        | none => rfl
        | some v => rw [(machineOf_ok_iff lib name spec v).2 hrec] at hm; cases hm
      simp [hr]
    | panic q =>
      have hr : recordOf lib name spec = none := by
        cases hrec : recordOf lib name spec with
        | none => rfl
        | some v => rw [(machineOf_ok_iff lib name spec v).2 hrec] at hm; cases hm
      simp [hr]
    | ok v =>
      have hr : recordOf lib name spec = some v := (machineOf_ok_iff lib name spec v).1 hm
      simp only [hr]
      rw [ih]
      cases recordsOf lib rest with
      | none => simp
      | some vs => simp [List.append_assoc]

theorem listLoop_ok_iff (lib : Lib) (m : bodegaManager) (es : Entries) (acc ms : List VM)
    (w : World) :
    (listLoop lib m acc es w).1 = Outcome.ok ms ↔
      ∃ r, listSpec lib m es w = some r ∧ ms = acc ++ r := by
  induction es generalizing acc w with
  | nil => simp [listLoop, listSpec, eq_comm]
  | cons e rest ih =>
    obtain ⟨orderID, machines⟩ := e
    unfold listLoop listSpec
    dsimp only
    cases hg : (m.getOrder lib orderID w).1 with
    | error e => simp
    | ok order =>
      simp only
      cases hl : List.lookup "fulfilled_items" order with
      | none => simp
      | some items =>
        cases items with
        | obj items =>
          simp only
          cases hmo : machinesOf lib acc items with
          | error e =>
            have hr : recordsOf lib items = none := by
              cases hrec : recordsOf lib items with
              | none => rfl
              | some r =>
                rw [(machinesOf_ok_iff lib items acc (acc ++ r)).2 ⟨r, hrec, rfl⟩] at hmo
                cases hmo
            simp [hr]
          | panic q =>
            have hr : recordsOf lib items = none := by
              cases hrec : recordsOf lib items with
              | none => rfl
              | some r =>
                rw [(machinesOf_ok_iff lib items acc (acc ++ r)).2 ⟨r, hrec, rfl⟩] at hmo
                cases hmo
            simp [hr]
          | ok all2 =>
            obtain ⟨r, hr, hall⟩ := (machinesOf_ok_iff lib items acc all2).1 hmo
            subst hall
            simp only [hr]
            rw [ih]
            cases listSpec lib m rest (m.getOrder lib orderID w).2 with
            | none => simp
            | some b => simp [List.append_assoc]
        | _ => simp

theorem recordOf_fields (lib : Lib) (name : String) (spec : JVal) (v : VM)
    (h : recordOf lib name spec = some v) :
    v.Name = name ∧ v.Provider = "bodega" ∧ v.ProviderID = "bodega" := by
  cases spec with
  | obj fields =>
    unfold recordOf at h
    cases h1 : stringAt fields "time_created" with
    | none => simp [h1] at h
    | some ts =>
      cases h2 : stringAt fields "ipv4" with
      | none => simp [h1, h2] at h
      | some ip =>
        cases h3 : stringAt fields "username" with
        | none => simp [h1, h2, h3] at h
        | some user =>
          cases h4 : stringAt fields "location" with
          | none => simp [h1, h2, h3, h4] at h
          | some zone =>
            cases hp : lib.parseRFC3339 ts with
            | error e => simp [h1, h2, h3, h4, hp] at h
            | ok created =>
              simp only [h1, h2, h3, h4, hp, Option.some.injEq] at h
              subst h
              exact ⟨rfl, rfl, rfl⟩
  | _ => simp [recordOf] at h

theorem recordsOf_fields (lib : Lib) (items : JObj) (r : List VM)
    (h : recordsOf lib items = some r) :
    r.map (fun v => v.Name) = items.map Prod.fst ∧ ∀ v ∈ r, v.Provider = "bodega" := by
  induction items generalizing r with
  | nil =>
    simp only [recordsOf, Option.some.injEq] at h
    subst h
    simp
  | cons item rest ih =>
    obtain ⟨name, spec⟩ := item
    unfold recordsOf at h
    cases h1 : recordOf lib name spec with
    | none => simp [h1] at h
    | some v =>
      cases h2 : recordsOf lib rest with
      | none => simp [h1, h2] at h
      | some vs =>
        simp only [h1, h2, Option.some.injEq] at h
        subst h
        have hv := recordOf_fields lib name spec v h1
        have hvs := ih vs h2
        refine ⟨by simp [hv.1, hvs.1], ?_⟩
        intro x hx
        rcases List.mem_cons.1 hx with hx | hx
        · rw [hx]
          exact hv.2.1
        · exact hvs.2 x hx

theorem listSpec_provider (lib : Lib) (m : bodegaManager) (es : Entries) (w : World)
    (ms : List VM) (h : listSpec lib m es w = some ms) : ∀ v ∈ ms, v.Provider = "bodega" := by
  induction es generalizing w ms with
  | nil =>
    simp only [listSpec, Option.some.injEq] at h
    subst h
    simp
  | cons e rest ih =>
    obtain ⟨orderID, machines⟩ := e
    unfold listSpec at h
    cases hg : (m.getOrder lib orderID w).1 with
    | error e => simp [hg] at h
    | ok order =>
      simp only [hg] at h
      cases hl : List.lookup "fulfilled_items" order with
      | none => simp [hl] at h
      | some items =>
        cases items with
        | obj items =>
          simp only [hl] at h
          cases h1 : recordsOf lib items with
          | none => simp [h1] at h
          | some a =>
            cases h2 : listSpec lib m rest (m.getOrder lib orderID w).2 with
            | none => simp [h1, h2] at h
            | some b =>
              simp only [h1, h2, Option.some.injEq] at h
              subst h
              intro v hv
              rcases List.mem_append.1 hv with hv | hv
              · exact (recordsOf_fields lib items a h1).2 v hv
              · exact ih _ b h2 v hv
        | _ => simp [hl] at h

theorem machineOf_error (lib : Lib) (name : String) (spec : JVal) (msg : String)
    (h : machineOf lib name spec = Outcome.error msg) :
    ∃ e, msg = "unable to parse time string: " ++ e := by
  cases spec with
  | obj fields =>
    unfold machineOf at h
    simp only [stringField_eq] at h
    cases h1 : stringAt fields "time_created" with
    | none => simp [h1] at h
    | some ts =>
      cases hp : lib.parseRFC3339 ts with
      | error e =>
        simp only [h1, hp, Outcome.error.injEq] at h
        exact ⟨e, h.symm⟩
      | ok created =>
        cases h2 : stringAt fields "ipv4" <;> cases h3 : stringAt fields "username" <;>
          cases h4 : stringAt fields "location" <;> simp [h1, hp, h2, h3, h4] at h
  | _ => simp [machineOf] at h

theorem machinesOf_error (lib : Lib) (items : JObj) (acc : List VM) (msg : String)
    (h : machinesOf lib acc items = Outcome.error msg) :
    ∃ e, msg = "unable to parse time string: " ++ e := by
  induction items generalizing acc with
  | nil => simp [machinesOf] at h
  | cons item rest ih =>
    obtain ⟨name, spec⟩ := item
    unfold machinesOf at h
    cases hm : machineOf lib name spec with
    | error e =>
      simp only [hm, Outcome.error.injEq] at h
      subst h
      exact machineOf_error lib name spec _ hm
    | panic q => simp [hm] at h
    | ok v =>
      simp only [hm] at h
      exact ih _ h

theorem listLoop_error (lib : Lib) (m : bodegaManager) (es : Entries) (acc : List VM)
    (w : World) (msg : String) (h : (listLoop lib m acc es w).1 = Outcome.error msg) :
    (∃ orderID e, msg = "unable to consume order " ++ orderID ++ ": " ++ e) ∨
      ∃ e, msg = "unable to parse time string: " ++ e := by
  induction es generalizing acc w with
  | nil => simp [listLoop] at h
  | cons e rest ih =>
    obtain ⟨orderID, machines⟩ := e
    unfold listLoop at h
    dsimp only at h
    cases hg : (m.getOrder lib orderID w).1 with
    | error e =>
      simp only [hg, Outcome.error.injEq] at h
      exact Or.inl ⟨orderID, e, h.symm⟩
    | ok order =>
      simp only [hg] at h
      cases hl : List.lookup "fulfilled_items" order with
      | none => simp [hl] at h
      | some items =>
        cases items with
        | obj items =>
          simp only [hl] at h
          cases hmo : machinesOf lib acc items with
          | error e =>
            simp only [hmo, Outcome.error.injEq] at h
            subst h
            exact Or.inr (machinesOf_error lib items acc _ hmo)
          | panic q => simp [hmo] at h
          | ok all2 =>
            simp only [hmo] at h
            exact ih _ _ h
        | _ => simp [hl] at h

/-- C9 fails as stated: the one fulfilled item of the live registered order X has no
`ipv4` field, and `List` neither returns an error nor a list: it panics. -/
theorem List_missing_field_panics :
    (sampleManager.orderToMachineMap sampleLib noAddressWorld).1
      = Outcome.ok (OrderMap.mk [("X", ["vm1"])]) ∧
    (sampleProvider.List sampleLib noAddressWorld).1 = Outcome.panic "interface conversion" ∧
    (∀ msg, (sampleProvider.List sampleLib noAddressWorld).1 ≠ Outcome.error msg) ∧
    (∀ ms, (sampleProvider.List sampleLib noAddressWorld).1 ≠ Outcome.ok ms) := by
  have h : (sampleProvider.List sampleLib noAddressWorld).1
      = Outcome.panic "interface conversion" := rfl
  refine ⟨rfl, h, ?_, ?_⟩
  · intro msg hm
    rw [h] at hm
    cases hm
  · intro ms hm
    rw [h] at hm
    cases hm

/-- C9 as amended: `List` returns a list exactly when the registry read succeeds,
every live registered order can be fetched and has fulfilled items that are all well
formed, and the list is then the complete one: the records of the fulfilled items of
every such order, each with provider `bodega`.  In every other case `List` ends with
an error or with a runtime panic, and neither carries a machine list.  An error is
the error of the registry read, of an order fetch, or of parsing a creation time;
every other failure is a panic. -/
theorem List_complete_or_nothing (lib : Lib) (p : Provider) (w : World) :
    (∀ ms, (p.List lib w).1 = Outcome.ok ms ↔
      ∃ M, (p.manager.orderToMachineMap lib w).1 = Outcome.ok M ∧
        listSpec lib p.manager M.entries (p.manager.orderToMachineMap lib w).2 = some ms)
    ∧ (∀ ms, (p.List lib w).1 = Outcome.ok ms → ∀ v ∈ ms, v.Provider = "bodega")
    ∧ ((∀ M, (p.manager.orderToMachineMap lib w).1 = Outcome.ok M →
          listSpec lib p.manager M.entries (p.manager.orderToMachineMap lib w).2 = none) →
        ∃ msg, (p.List lib w).1 = Outcome.error msg ∨ (p.List lib w).1 = Outcome.panic msg)
    ∧ (∀ msg, (p.List lib w).1 = Outcome.error msg →
        (p.manager.orderToMachineMap lib w).1 = Outcome.error msg ∨
        (∃ orderID e, msg = "unable to consume order " ++ orderID ++ ": " ++ e) ∨
        ∃ e, msg = "unable to parse time string: " ++ e) := by
  have hiff : ∀ ms, (p.List lib w).1 = Outcome.ok ms ↔
      ∃ M, (p.manager.orderToMachineMap lib w).1 = Outcome.ok M ∧
        listSpec lib p.manager M.entries (p.manager.orderToMachineMap lib w).2 = some ms := by
    intro ms
    unfold Provider.List
    dsimp only
    cases hr : (p.manager.orderToMachineMap lib w).1 with
    | error e => simp
    | panic q => simp
    | ok M =>
      simp only [Outcome.ok.injEq, exists_eq_left']
      rw [listLoop_ok_iff]
      simp
  refine ⟨hiff, ?_, ?_, ?_⟩
  · intro ms hms v hv
    obtain ⟨M, _, hspec⟩ := (hiff ms).1 hms
    exact listSpec_provider lib p.manager _ _ ms hspec v hv
  · intro hnone
    cases hres : (p.List lib w).1 with
    | error e => exact ⟨e, Or.inl rfl⟩
    | panic q => exact ⟨q, Or.inr rfl⟩
    | ok ms =>
      obtain ⟨M, hM, hspec⟩ := (hiff ms).1 hres
      rw [hnone M hM] at hspec
      cases hspec
  · intro msg hmsg
    unfold Provider.List at hmsg
    dsimp only at hmsg
    cases hr : (p.manager.orderToMachineMap lib w).1 with
    | error e =>
      simp only [hr, Outcome.error.injEq] at hmsg
      exact Or.inl (by rw [hmsg])
    | panic q => simp [hr] at hmsg
    | ok M =>
      simp only [hr] at hmsg
      exact Or.inr (listLoop_error lib p.manager _ _ _ msg hmsg)

/-- Witness for C9 as amended: the one live registered order has one complete item. -/
theorem List_complete_or_nothing_witness :
    (sampleManager.orderToMachineMap sampleLib listedWorld).1
      = Outcome.ok (OrderMap.mk [("X", ["vm1"])]) ∧
    (sampleProvider.List sampleLib listedWorld).1 =
      Outcome.ok [⟨"vm1", "bodega", "bodega", 1546300800, "10.0.0.1", "ubuntu", "AWS-US-WEST-1"⟩] :=
  ⟨rfl, ((List_complete_or_nothing sampleLib sampleProvider listedWorld).1 _).2
    ⟨OrderMap.mk [("X", ["vm1"])], rfl, rfl⟩⟩

end Bodega
